import Mathlib

/-!
Shallow embedding of the tiling / padding / stitching engine of
`bioimageio/core/prediction.py`.

Arrays are modelled as a shape (list of per-axis extents) together with a
total function from multi-indices to integer values; only in-bounds indices
are meaningful.  Python slices keep their start/stop semantics, including
absent (`None`) and negative endpoints.  Exceptions raised by the Python code
are modelled with `Except PyError`.
-/

namespace Bio

/-- Axis labels used by the engine: batch, channel and the three spatial
axes. -/
inductive Ax
  | b
  | c
  | x
  | y
  | z
deriving DecidableEq, Repr

/-- The test `ax in "xyz"` from the source. -/
def Ax.isSpatial : Ax → Bool
  | .x => true
  | .y => true
  | .z => true
  | _ => false

/-- A Python `slice(start, stop)` with step 1.  Either endpoint may be absent
(`None`), and a negative endpoint counts from the end of the axis. -/
structure PySlice where
  start : Option Int
  stop : Option Int
deriving DecidableEq, Repr

/-- The full slice `slice(None)`. -/
def PySlice.all : PySlice := ⟨none, none⟩

/-- Resolve one slice endpoint against an axis of length `n` the way CPython
does for step 1: `None` gives the default, a negative value counts from the
end, and the result is clamped into `[0, n]`. -/
def resolveEndpoint (e : Option Int) (dflt : Nat) (n : Nat) : Nat :=
  match e with
  | none => dflt
  | some v => if v < 0 then (v + n).toNat else min v.toNat n

/-- Resolved start index of a slice over an axis of length `n`. -/
def PySlice.startIdx (s : PySlice) (n : Nat) : Nat :=
  resolveEndpoint s.start 0 n

/-- Resolved stop index of a slice over an axis of length `n`. -/
def PySlice.stopIdx (s : PySlice) (n : Nat) : Nat :=
  resolveEndpoint s.stop n n

/-- Length of the axis selected by a slice over an axis of length `n`. -/
def PySlice.len (s : PySlice) (n : Nat) : Nat :=
  s.stopIdx n - s.startIdx n

/-- A multi-dimensional array: per-axis extents plus a total valuation of
multi-indices (only in-bounds indices are meaningful). -/
structure NDArr where
  shape : List Nat
  data : List Nat → Int

/-- Pointwise bounds check of a multi-index against a shape. -/
def inBounds : List Nat → List Nat → Bool
  | [], [] => true
  | n :: sh, i :: idx => decide (i < n) && inBounds sh idx
  | _, _ => false

/-- Shape of `a[sl]` for a per-axis list of slices. -/
def sliceShape : List PySlice → List Nat → List Nat
  | s :: sl, n :: sh => s.len n :: sliceShape sl sh
  | _, _ => []

/-- Translate an index of `a[sl]` into an index of `a`. -/
def sliceIdx : List PySlice → List Nat → List Nat → List Nat
  | s :: sl, n :: sh, i :: idx => (s.startIdx n + i) :: sliceIdx sl sh idx
  | _, _, _ => []

/-- Basic (view) indexing `a[sl]` with one slice per axis. -/
def NDArr.slice (a : NDArr) (sl : List PySlice) : NDArr :=
  ⟨sliceShape sl a.shape, fun idx => a.data (sliceIdx sl a.shape idx)⟩

/-- Whether a multi-index lies inside the window selected by a list of
slices (one slice per axis, resolved against the given shape). -/
def inWin : List PySlice → List Nat → List Nat → Bool
  | [], [], [] => true
  | s :: sl, n :: sh, i :: idx =>
      decide (s.startIdx n ≤ i) && decide (i < s.stopIdx n) && inWin sl sh idx
  | _, _, _ => false

/-- Translate an absolute index inside a window into the window's own
coordinates. -/
def relIdx : List PySlice → List Nat → List Nat → List Nat
  | s :: sl, n :: sh, i :: idx => (i - s.startIdx n) :: relIdx sl sh idx
  | _, _, _ => []

/-- Slice assignment `a[sl] = v`: positions inside the window take the
corresponding value of `v`, all others keep their value. -/
def NDArr.setSlice (a : NDArr) (sl : List PySlice) (v : NDArr) : NDArr :=
  ⟨a.shape, fun idx =>
    if inWin sl a.shape idx then v.data (relIdx sl a.shape idx) else a.data idx⟩

/-- Exceptions of the Python code. -/
inductive PyError
  | paddingError
  | emptyAxisPad
  | zeroDivision
  | notImplemented (msg : String)
  | assertionFailed
  | indexError
  | keyError
  | typeError
  | configError
  | valueError
deriving DecidableEq, Repr

/-- The padding mode popped from the padding dict in `_pad`. -/
inductive PadMode
  | dynamic
  | fixed
deriving DecidableEq, Repr

/-- The padding dict of `_pad` after popping `mode`: the mode together with
the per-spatial-axis target (`padding_[ax]`). -/
structure PaddingSpec where
  mode : PadMode
  target : Ax → Nat

/-- The `pad_right` argument of `_pad`: a single boolean, or one entry per
axis (`None` placeholders for the non-spatial axes on the tiled path). -/
inductive PadRightArg
  | ofBool (b : Bool)
  | ofList (l : List (Option Bool))

/-- `pad_right = len(axes) * [pad_right]` when a bare boolean is given. -/
def PadRightArg.toList (pr : PadRightArg) (nAxes : Nat) : List (Option Bool) :=
  match pr with
  | .ofBool b => List.replicate nAxes (some b)
  | .ofList l => l

/-- Dynamic-mode pad width: `r = dlen % pad_to; 0 if r == 0 else pad_to - r`. -/
def dynWidth (pad_to dlen : Nat) : Nat :=
  if dlen % pad_to == 0 then 0 else pad_to - dlen % pad_to

/-- Fixed-mode pad width `pad_to - dlen` (only used when `dlen ≤ pad_to`). -/
def fixWidth (pad_to dlen : Nat) : Nat := pad_to - dlen

/-- The pad width of one spatial axis of extent `dlen`.  A `%` by zero
raises `ZeroDivisionError`; a fixed target below the current extent raises
the padding `RuntimeError`. -/
def padAxWidth (mode : PadMode) (pad_to dlen : Nat) : Except PyError Nat :=
  match mode with
  | .dynamic =>
      if pad_to == 0 then .error .zeroDivision else .ok (dynWidth pad_to dlen)
  | .fixed =>
      if pad_to < dlen then .error .paddingError else .ok (fixWidth pad_to dlen)

/-- The loop of `_pad` over `zip(axes, im.shape, pad_right)`: computes the
`(left, right)` pad width and the inverse crop slice for every axis, raising
at the first failing axis. -/
def padLoop (mode : PadMode) (target : Ax → Nat) :
    List Ax → List Nat → List (Option Bool) →
    Except PyError (List (Nat × Nat) × List PySlice)
  | ax :: axes, dlen :: sh, pr :: prs =>
    if ax.isSpatial then
      match padAxWidth mode (target ax) dlen with
      | .error e => .error e
      | .ok pwidth =>
        -- `if pr` in Python: a `None` placeholder is falsy
        let prb := pr == some true
        match padLoop mode target axes sh prs with
        | .error e => .error e
        | .ok (ws, crop) =>
            .ok ((if prb then (0, pwidth) else (pwidth, 0)) :: ws,
                 (if prb then PySlice.mk (some 0) (some (dlen : Int))
                  else PySlice.mk (some (pwidth : Int)) none) :: crop)
    else
      match padLoop mode target axes sh prs with
      | .error e => .error e
      | .ok (ws, crop) => .ok ((0, 0) :: ws, PySlice.all :: crop)
  | _, _, _ => .ok ([], [])

/-- Index into the symmetric (mirror) extension of `[0, n)`, as used by
`np.pad(…, mode="symmetric")`: the extension has period `2n`, reading the
data forwards then backwards. -/
def symIdx (n : Nat) (t : Int) : Nat :=
  let m := (t % (2 * n : Int)).toNat
  if m < n then m else 2 * n - 1 - m

/-- Shape after padding each axis by the given `(left, right)` widths. -/
def padShape : List (Nat × Nat) → List Nat → List Nat
  | w :: ws, n :: sh => (w.1 + n + w.2) :: padShape ws sh
  | _, _ => []

/-- Translate an index of the padded array to the source index it mirrors. -/
def padIdx : List (Nat × Nat) → List Nat → List Nat → List Nat
  | w :: ws, n :: sh, i :: idx => symIdx n ((i : Int) - w.1) :: padIdx ws sh idx
  | _, _, _ => []

/-- `np.pad` raises `ValueError` when asked to extend an empty axis with a
non-constant mode. -/
def hasEmptyAxisPad : List (Nat × Nat) → List Nat → Bool
  | w :: ws, n :: sh =>
      (decide (n = 0) && (decide (0 < w.1) || decide (0 < w.2))) || hasEmptyAxisPad ws sh
  | _, _ => false

/-- `np.pad(im, pad_width, mode="symmetric")`. -/
def npPadSymmetric (a : NDArr) (ws : List (Nat × Nat)) : Except PyError NDArr :=
  if hasEmptyAxisPad ws a.shape then .error .emptyAxisPad
  else .ok ⟨padShape ws a.shape, fun idx => a.data (padIdx ws a.shape idx)⟩

/-- `_pad(im, axes, padding, pad_right)`: returns the symmetrically padded
array and the crop mapping that inverts the padding.  The crop list is kept
aligned with `axes` (the source keys it by axis name). -/
def _pad (im : NDArr) (axes : List Ax) (padding : PaddingSpec)
    (pad_right : PadRightArg) : Except PyError (NDArr × List PySlice) :=
  match padLoop padding.mode padding.target axes im.shape
      (pad_right.toList axes.length) with
  | .error e => .error e
  | .ok (ws, crop) =>
    match npPadSymmetric im ws with
    | .error e => .error e
    | .ok p => .ok (p, crop)

/-- `_apply_crop(data, crop)` (the source reorders the crop dict by the
data's dims; here the crop list is already aligned with the axes). -/
def _apply_crop (data : NDArr) (crop : List PySlice) : NDArr :=
  data.slice crop

/-- Number of tiles along one spatial axis:
`sh // tsh if sh % tsh == 0 else sh // tsh + 1`. -/
def nTilesAx (sh tsh : Nat) : Nat :=
  if sh % tsh == 0 then sh / tsh else sh / tsh + 1

/-- The `(outer, inner, local)` window triple of `_get_tiling` for one
spatial axis of extent `sh`, tile extent `tsh`, halo `ha` and tile index
`i` (so `pos = i * tsh`), with Python's int arithmetic over `ℤ`. -/
def spatialWindows (sh tsh ha i : Nat) : PySlice × PySlice × PySlice :=
  let pos : Int := (i : Int) * tsh
  let os : Int := max (pos - ha) 0
  let oe : Int := min (pos + tsh + ha) sh
  let istart : Int := pos
  let istop : Int := min (pos + tsh) sh
  (⟨some os, some oe⟩,
   ⟨some istart, some istop⟩,
   ⟨some (istart - os), if oe ≠ istop then some (-(oe - istop)) else none⟩)

/-- One tile's window triples over the full axis list: the computed windows
at spatial axes (consuming the tile-index vector `sp`), `slice(None)` at
batch/channel axes. -/
def axisWindows (tile halo : Ax → Nat) :
    List Ax → List Nat → List Nat → List (PySlice × PySlice × PySlice)
  | ax :: axes, sh :: shape, sp =>
    if ax.isSpatial then
      match sp with
      | i :: sp' => spatialWindows sh (tile ax) (halo ax) i ::
          axisWindows tile halo axes shape sp'
      | [] => []
    else
      (PySlice.all, PySlice.all, PySlice.all) :: axisWindows tile halo axes shape sp
  | _, _, _ => []

/-- The per-spatial-axis tile counts, in axis order (the `ranges` of
`_get_tiling`). -/
def tileRanges (tile : Ax → Nat) : List Ax → List Nat → List Nat
  | ax :: axes, sh :: shape =>
    if ax.isSpatial then nTilesAx sh (tile ax) :: tileRanges tile axes shape
    else tileRanges tile axes shape
  | _, _ => []

/-- `itertools.product(range n_1, …, range n_k)` in lexicographic order,
last component varying fastest. -/
def cartProd : List Nat → List (List Nat)
  | [] => [[]]
  | n :: ns => (List.range n).flatMap (fun i => (cartProd ns).map (i :: ·))

/-- Split a list of window triples into the triple of window lists. -/
def unzip3 : List (PySlice × PySlice × PySlice) →
    List PySlice × List PySlice × List PySlice
  | [] => ([], [], [])
  | (a, b, c) :: l =>
    let r := unzip3 l
    (a :: r.1, b :: r.2.1, c :: r.2.2)

/-- `_get_tiling(shape, tile_shape, halo, input_axes)`: the full (finite)
sequence of `(outer_tile, inner_tile, local_tile)` window triples, each
aligned with the axis list. -/
def _get_tiling (shape : List Nat) (tile halo : Ax → Nat) (axes : List Ax) :
    List (List PySlice × List PySlice × List PySlice) :=
  (cartProd (tileRanges tile axes shape)).map
    (fun sp => unzip3 (axisWindows tile halo axes shape sp))

/-- The `pad_right` list computed by `load_tile`:
`[tile[ax].start == 0 if ax in "xyz" else None for ax in input_axes]`. -/
def tilePadRight : List Ax → List PySlice → List (Option Bool)
  | ax :: axes, s :: sl =>
    (if ax.isSpatial then some (s.start == some 0) else none) :: tilePadRight axes sl
  | _, _ => []

/-- The key-count assert of `_pad` (`assert len(padding_) == 3 if is_volume
else 2`) evaluated for the padding dict built on the tiled path
(`{ax: … for ax in input_axes if ax in "xyz"}` at line 241): its key set is
the set of distinct spatial axes of the input, so with `z` present there
must be three distinct spatial axes (`x`, `y` and `z`) and without `z`
exactly two (`x` and `y`). -/
def spatialKeyCountOk (axes : List Ax) : Bool :=
  if axes.contains Ax.z then (axes.filter Ax.isSpatial).dedup.length == 3
  else (axes.filter Ax.isSpatial).dedup.length == 2

/-- `predict_with_padding` as called on the tiled path: a single bare
`DataArray` input and the padding dict built at line 241 (whose keys are the
distinct spatial axes of the input).  `f` stands for the prediction
pipeline's forward call.  The `if not padding: raise ValueError` guard
cannot fire here (the dict is non-empty).  The source's
`assert len(inputs) == len(prediction_pipeline.input_specs)` runs on the
bare array, where `len` is the first-dimension extent and there is exactly
one input spec, so it demands a leading extent of 1 (`len` of a 0-d array
raises `TypeError`); `_pad`'s key-count assert is then checked for the
line-241 dict (`spatialKeyCountOk`), since this embedding's `PaddingSpec`
abstracts the dict as a total map. -/
def predict_with_padding (f : NDArr → NDArr) (inp : NDArr) (axes : List Ax)
    (padding : PaddingSpec) (pad_right : PadRightArg) : Except PyError NDArr :=
  match inp.shape with
  | [] => .error .typeError
  | n :: _ =>
    if n ≠ 1 then .error .assertionFailed
    else if !spatialKeyCountOk axes then .error .assertionFailed
    else
      match _pad inp axes padding pad_right with
      | .error e => .error e
      | .ok pc => .ok (_apply_crop (f pc.1) pc.2)

/-- The fixed-mode padding dict built by `_predict_with_tiling_impl`:
`{ax: tile_shape[ax] + 2 * halo[ax] for spatial ax}`, `mode="fixed"`. -/
def tiledPaddingSpec (tile halo : Ax → Nat) : PaddingSpec :=
  ⟨.fixed, fun ax => tile ax + 2 * halo ax⟩

/-- The body of the tile loop of `_predict_with_tiling_impl`: load the outer
tile, run padded prediction, and write `out[local_tile]` into
`output[inner_tile]`. -/
def tiledStep (f : NDArr → NDArr) (input_ : NDArr) (axes : List Ax)
    (padding : PaddingSpec) (out : NDArr)
    (w : List PySlice × List PySlice × List PySlice) : Except PyError NDArr :=
  let inp := input_.slice w.1
  let pad_right := tilePadRight axes w.1
  match predict_with_padding f inp axes padding (.ofList pad_right) with
  | .error e => .error e
  | .ok res => .ok (out.setSlice w.2.1 (res.slice w.2.2))

/-- `_predict_with_tiling_impl`: single-input / single-output tiled
prediction, mutating and returning the output buffer.  The axis list of the
single input (`input_.dims` in the source) is passed explicitly.  The
window dicts hard-code the `b` and `c` keys (`outer_tile["b"] =
slice(None)` etc.), so the first `load_tile` raises an xarray `ValueError`
when the array lacks either dim: with at least one tile and `b` or `c`
absent from the axes the loop fails on its first iteration, before any
write. -/
def _predict_with_tiling_impl (f : NDArr → NDArr) (inputs outputs : List NDArr)
    (axes : List Ax) (tileShapes halos : List (Ax → Nat)) :
    Except PyError NDArr :=
  if 1 < inputs.length then
    .error (.notImplemented "Tiling with multiple inputs not implemented yet")
  else if 1 < outputs.length then
    .error (.notImplemented "Tiling with multiple outputs not implemented yet")
  else if tileShapes.length ≠ outputs.length then .error .assertionFailed
  else if halos.length ≠ outputs.length then .error .assertionFailed
  else
    match inputs, outputs, tileShapes, halos with
    | input_ :: _, output :: _, tile :: _, halo :: _ =>
      if !(_get_tiling input_.shape tile halo axes).isEmpty &&
          !(axes.contains Ax.b && axes.contains Ax.c) then
        .error .valueError
      else
        (_get_tiling input_.shape tile halo axes).foldlM
          (tiledStep f input_ axes (tiledPaddingSpec tile halo)) output
    | _, _, _, _ => .error .indexError

/-! ### Orchestration: `predict_with_tiling` and `_predict_sample` -/

/-- An input tensor spec: its name and axis list. -/
structure InputSpec where
  name : String
  axes : List Ax

/-- An output tensor spec's shape: an explicit extent list, or an
`ImplicitOutputShape` with per-axis scale and offset relative to a
reference input tensor. -/
inductive OutShape
  | explicit (l : List Nat)
  | implicit (scale : List Int) (offset : List Int) (reference_tensor : String)

/-- An output tensor spec: name, axis list and shape. -/
structure OutputSpec where
  name : String
  axes : List Ax
  shape : OutShape

/-- `named_inputs[name]` built from `zip(input_specs, inputs)`; the spec is
returned alongside the array because the array's dims (`ref_input.dims` in
the source) come from its spec's axis list. -/
def namedLookup (name : String) : List InputSpec → List NDArr → Option (InputSpec × NDArr)
  | spec :: specs, a :: rest =>
    if spec.name = name then some (spec, a) else namedLookup name specs rest
  | _, _ => none

/-- Dict lookup `ref_input_shape[ax]` built from `zip(ref_input.dims,
ref_input.shape)`. -/
def axisLookup (ax : Ax) : List Ax → List Nat → Option Nat
  | a :: axs, n :: ns => if a = ax then some n else axisLookup ax axs ns
  | _, _ => none

/-- The guard of `predict_with_tiling`'s allocation path:
`any(sc != 1 …) or any(off != 0 …)` over the spatial axes. -/
def badSpatialScaleOffset (axes : List Ax) (scale offset : List Int) : Bool :=
  ((axes.zip scale).any fun p => p.1.isSpatial && p.2 != 1) ||
  ((axes.zip offset).any fun p => p.1.isSpatial && p.2 != 0)

/-- `tuple(int(scale[ax] * ref_input_shape[ax] + 2 * offset[ax]) for ax in
output_spec.axes)` (integer-valued scale and offset).  `scale` and `offset`
are the dicts `dict(zip(output_spec.axes, …))`, so when the scale or offset
list is shorter than the axis list the comprehension hits an axis missing
from the dict and raises `KeyError`; a missing axis in the reference shape
dict raises `KeyError` likewise. -/
def implicitShape (refAxes : List Ax) (refShape : List Nat) :
    List Ax → List Int → List Int → Except PyError (List Nat)
  | [], _, _ => .ok []
  | ax :: axes, sc :: scs, off :: offs =>
    match axisLookup ax refAxes refShape with
    | none => .error .keyError
    | some n =>
      match implicitShape refAxes refShape axes scs offs with
      | .error e => .error e
      | .ok rest => .ok ((sc * (n : Int) + 2 * off).toNat :: rest)
  | _ :: _, _, _ => .error .keyError

/-- Allocation of one output buffer by `predict_with_tiling` when
`outputs is None`: an all-zero array shaped by the output spec. -/
def allocOutput (inputSpecs : List InputSpec) (inputs : List NDArr)
    (ospec : OutputSpec) : Except PyError NDArr :=
  match ospec.shape with
  | .explicit l => .ok ⟨l, fun _ => 0⟩
  | .implicit scale offset ref =>
    if badSpatialScaleOffset ospec.axes scale offset then
      .error (.notImplemented "Tiling with a different output shape is not yet supported")
    else
      match namedLookup ref inputSpecs inputs with
      | none => .error .keyError
      | some refInput =>
        match implicitShape refInput.1.axes refInput.2.shape ospec.axes scale offset with
        | .error e => .error e
        | .ok sh => .ok ⟨sh, fun _ => 0⟩

/-- `mapM` of `allocOutput` over the output specs. -/
def allocOutputs (inputSpecs : List InputSpec) (inputs : List NDArr) :
    List OutputSpec → Except PyError (List NDArr)
  | [] => .ok []
  | s :: specs =>
    match allocOutput inputSpecs inputs s with
    | .error e => .error e
    | .ok a =>
      match allocOutputs inputSpecs inputs specs with
      | .error e => .error e
      | .ok rest => .ok (a :: rest)

/-- `tuple(sh for ax, sh in zip(axes, arr.shape))` — the "spatial" shape
comparison of `predict_with_tiling` (note: the comprehension in the source
does not actually filter to spatial axes; `zip` just truncates). -/
def zipShape (axes : List Ax) (shape : List Nat) : List Nat :=
  (axes.zip shape).map (·.2)

/-- The asserts of `check_tiling` (called by `_parse_tiling` on a supplied
tiling dict): every spatial axis of the (single) input spec must have a
strictly positive `halo` entry and a strictly positive `tile` entry
(`tiling["halo"].get(ax, 0) > 0`, `tiling["tile"].get(ax, 0) > 0`; a dict
missing an axis defaults to 0 and fails, matching the total-map
representation with value 0). -/
def check_tiling_ok (axes : List Ax) (tile halo : Ax → Nat) : Bool :=
  ((axes.filter Ax.isSpatial).all fun ax => decide (0 < halo ax)) &&
  ((axes.filter Ax.isSpatial).all fun ax => decide (0 < tile ax))

/-- `predict_with_tiling(prediction_pipeline, inputs, tiling, outputs)` for
a tiling given as a dict, modelled by the parsed pair of per-axis maps (the
`if not tiling: raise ValueError` guard cannot fire: a supplied dict is
truthy, being non-empty).  After the input-count assert, `_parse_tiling`
rejects multiple inputs or outputs (`NotImplementedError`), indexes
`input_specs[0]` (`IndexError` when empty) and runs `check_tiling`'s
asserts; then missing output buffers are allocated from the output specs,
supplied ones are checked, `_predict_with_tiling_impl` runs, and the output
list is returned.  `f` stands for the pipeline's forward call; the in-place
mutation of `outputs[0]` is modelled by replacing that element. -/
def predict_with_tiling (f : NDArr → NDArr) (inputSpecs : List InputSpec)
    (outputSpecs : List OutputSpec) (inputs : List NDArr) (tile halo : Ax → Nat)
    (outputs : Option (List NDArr)) : Except PyError (List NDArr) :=
  if inputs.length ≠ inputSpecs.length then .error .assertionFailed
  else if 1 < inputSpecs.length then
    .error (.notImplemented "Tiling for multiple inputs not yet implemented")
  else if 1 < outputSpecs.length then
    .error (.notImplemented "Tiling for multiple outputs not yet implemented")
  else
    match inputSpecs with
    | [] => .error .indexError
    | ispec0 :: _ =>
      if !check_tiling_ok ispec0.axes tile halo then .error .assertionFailed
      else
        let outsE : Except PyError (List NDArr) :=
          match outputs with
          | none => allocOutputs inputSpecs inputs outputSpecs
          | some outs =>
            if outs.length ≠ outputSpecs.length then
              .error .valueError
            else if outs.length ≠ inputs.length then
              .error (.notImplemented
                "Tiling with a different number of inputs and outputs is not yet supported")
            else
              match inputSpecs, outputSpecs, inputs, outs with
              | ispec :: _, ospec :: _, inp :: _, out :: _ =>
                if zipShape ispec.axes inp.shape ≠ zipShape ospec.axes out.shape then
                  .error (.notImplemented "Tiling with a different output shape is not yet supported")
                else .ok outs
              | _, _, _, _ => .error .indexError
        match outsE with
        | .error e => .error e
        | .ok outs =>
          match _predict_with_tiling_impl f inputs outs ispec0.axes [tile] [halo] with
          | .error e => .error e
          | .ok res => .ok (outs.set 0 res)

/-- Python truthiness of the `padding` argument of `_predict_sample`:
`None` and `False` are falsy, a dict is truthy iff it is non-empty. -/
inductive PadArg
  | ofBool (b : Bool)
  | ofDict (entries : List (Ax × Nat))

/-- Truthiness of an optional `padding` argument. -/
def padTruthy : Option PadArg → Bool
  | none => false
  | some (.ofBool b) => b
  | some (.ofDict l) => !l.isEmpty

/-- The `tiling` argument: a bool or a (nested) dict. -/
inductive TileArg
  | ofBool (b : Bool)
  | ofDict (entries : List (String × List (Ax × Nat)))

/-- Truthiness of an optional `tiling` argument. -/
def tileTruthy : Option TileArg → Bool
  | none => false
  | some (.ofBool b) => b
  | some (.ofDict l) => !l.isEmpty

/-- The collaborators `_predict_sample` drives: the tensor loader and the
three prediction paths (opaque here; the source passes the prediction
pipeline to `predict_with_padding` / `predict_with_tiling` / `predict`). -/
structure SampleEnv where
  load_tensors : List String → List NDArr
  with_padding : List NDArr → PadArg → Except PyError (List NDArr)
  with_tiling : List NDArr → TileArg → Except PyError (List NDArr)
  plain : List NDArr → List NDArr

/-- `_predict_sample(prediction_pipeline, inputs, outputs, padding, tiling)`:
the mutual-exclusion guard runs before any tensor is loaded; the result is
the list of (path, array) pairs handed to `_save_image`.  The guard's
`ValueError("Only one of padding or tiling is supported")` is the spec's
`ConfigError`. -/
def _predict_sample (env : SampleEnv) (inputs outputs : List String)
    (padding : Option PadArg) (tiling : Option TileArg) :
    Except PyError (List (String × NDArr)) :=
  if padTruthy padding && tileTruthy tiling then .error .configError
  else
    let input_data := env.load_tensors inputs
    let resE : Except PyError (List NDArr) :=
      match padding, tiling with
      | some p, _ => env.with_padding input_data p
      | none, some t => env.with_tiling input_data t
      | none, none => .ok (env.plain input_data)
    match resE with
    | .error e => .error e
    | .ok result =>
      if result.length ≠ outputs.length then .error .assertionFailed
      else .ok (outputs.zip result)

/-! ### Helper predicates used in the statements and proofs -/

/-- Pointwise relation over three lists of equal length. -/
def Forall3 (P : α → β → γ → Prop) : List α → List β → List γ → Prop
  | [], [], [] => True
  | a :: l₁, b :: l₂, c :: l₃ => P a b c ∧ Forall3 P l₁ l₂ l₃
  | _, _, _ => False

/-- Per-axis description of one tile of `_get_tiling`: at a spatial axis the
windows come from `spatialWindows` at some in-range tile index, at a
batch/channel axis all three windows are `slice(None)`. -/
def TileAxOk (tile halo : Ax → Nat) (ax : Ax) (sh : Nat)
    (w : PySlice × PySlice × PySlice) : Prop :=
  if ax.isSpatial = true then
    ∃ i, i < nTilesAx sh (tile ax) ∧ w = spatialWindows sh (tile ax) (halo ax) i
  else w = (PySlice.all, PySlice.all, PySlice.all)

/-- Per-axis description of the result of the `_pad` loop: pad widths, crop
slice and the side actually chosen, for one axis of extent `dlen`. -/
def padAxRel (mode : PadMode) (tgt : Nat) (ax : Ax) (dlen : Nat)
    (w : Nat × Nat) (cr : PySlice) (pr : Option Bool) : Prop :=
  if ax.isSpatial = true then
    ∃ pw, (mode = .dynamic → tgt ≠ 0 ∧ pw = dynWidth tgt dlen) ∧
          (mode = .fixed → dlen ≤ tgt ∧ pw = fixWidth tgt dlen) ∧
          ((pr = some true ∧ w = (0, pw) ∧ cr = ⟨some 0, some (dlen : Int)⟩) ∨
           (pr ≠ some true ∧ w = (pw, 0) ∧ cr = ⟨some (pw : Int), none⟩))
  else w = (0, 0) ∧ cr = PySlice.all

/-- The tile index vector that covers a given multi-index: `q / tile_extent`
on each spatial axis. -/
def tileIdxOf (tile : Ax → Nat) : List Ax → List Nat → List Nat
  | ax :: axes, q :: idx =>
    if ax.isSpatial then (q / tile ax) :: tileIdxOf tile axes idx
    else tileIdxOf tile axes idx
  | _, _ => []

/-- Pointwise application of a list of predicates to a list of values. -/
def matchesL : List (Nat → Bool) → List Nat → Bool
  | [], [] => true
  | p :: ps, i :: rest => p i && matchesL ps rest
  | _, _ => false

/-- The spatial `(tile_extent, extent, position)` triples of a multi-index. -/
def spatialTriples (tile : Ax → Nat) : List Ax → List Nat → List Nat →
    List (Nat × Nat × Nat)
  | ax :: axes, sh :: shape, q :: idx =>
    if ax.isSpatial then (tile ax, sh, q) :: spatialTriples tile axes shape idx
    else spatialTriples tile axes shape idx
  | _, _, _ => []

/-- Whether tile index `i` owns position `q` along one spatial axis:
`i * tsh ≤ q < min (i * tsh + tsh) sh`. -/
def innerPred (t : Nat × Nat × Nat) : Nat → Bool := fun i =>
  decide (i * t.1 ≤ t.2.2) && decide (t.2.2 < min (i * t.1 + t.1) t.2.1)

/-! ### Concrete objects used by the witnesses -/

/-- A 1×7 example array over axes `(b, x)` whose values are the `x`
coordinates. -/
def exIm : NDArr := ⟨[1, 7], fun idx => match idx with | [_, i] => (i : Int) | _ => 0⟩

/-- Axes of `exIm`. -/
def exAxes : List Ax := [Ax.b, Ax.x]

/-- Dynamic padding to multiples of 4. -/
def exDyn : PaddingSpec := ⟨.dynamic, fun _ => 4⟩

/-- The result of dynamically padding `exIm` on the left. -/
def exPadDyn : Except PyError (NDArr × List PySlice) :=
  _pad exIm exAxes exDyn (.ofBool false)

/-- The padded array of `exPadDyn`. -/
def exPDyn : NDArr :=
  match exPadDyn with
  | .ok pc => pc.1
  | .error _ => ⟨[], fun _ => 0⟩

/-- The crop mapping of `exPadDyn`. -/
def exCropDyn : List PySlice :=
  match exPadDyn with
  | .ok pc => pc.2
  | .error _ => []

/-- The middle tile of the plan for spatial shape (10,), tile 4, halo 2. -/
def exTile7 : List PySlice × List PySlice × List PySlice :=
  ([⟨some 2, some 10⟩], [⟨some 4, some 8⟩], [⟨some 2, some (-2)⟩])

/-- A 1-D example input of extent 5 over the single spatial axis `x`. -/
def exIn1 : NDArr := ⟨[5], fun idx => match idx with | [i] => (i : Int) + 10 | _ => 0⟩

/-- An all-zero output buffer of the same shape as `exIn1`. -/
def exOut1 : NDArr := ⟨[5], fun _ => 0⟩

/-- A `b × c × y × x` example input of shape `1 × 2 × 9 × 9`. -/
def exIn4 : NDArr :=
  ⟨[1, 2, 9, 9],
   fun idx => match idx with
     | [_, ch, i, j] => (ch : Int) * 100 + (i : Int) * 10 + (j : Int)
     | _ => 0⟩

/-- An all-zero output buffer of the same shape as `exIn4`. -/
def exOut4 : NDArr := ⟨[1, 2, 9, 9], fun _ => 0⟩

/-! ### Basic lemmas about slice endpoints and the symmetric extension -/

theorem startIdx_coe (k : Nat) (st : Option Int) (n : Nat) :
    PySlice.startIdx ⟨some (k : Int), st⟩ n = min k n := by
  simp [PySlice.startIdx, resolveEndpoint]

theorem startIdx_none (st : Option Int) (n : Nat) :
    PySlice.startIdx ⟨none, st⟩ n = 0 := rfl

theorem stopIdx_coe (st : Option Int) (k n : Nat) :
    PySlice.stopIdx ⟨st, some (k : Int)⟩ n = min k n := by
  simp [PySlice.stopIdx, resolveEndpoint]

theorem stopIdx_none (st : Option Int) (n : Nat) :
    PySlice.stopIdx ⟨st, none⟩ n = n := rfl

theorem stopIdx_negCoe (st : Option Int) (m n : Nat) (hm : 0 < m) :
    PySlice.stopIdx ⟨st, some (-(m : Int))⟩ n = n - m := by
  simp only [PySlice.stopIdx, resolveEndpoint]
  rw [if_pos (by omega)]
  omega

theorem all_startIdx (n : Nat) : PySlice.all.startIdx n = 0 := rfl

theorem all_stopIdx (n : Nat) : PySlice.all.stopIdx n = n := rfl

theorem all_len (n : Nat) : PySlice.all.len n = n := by
  simp [PySlice.len, all_startIdx, all_stopIdx]

theorem symIdx_natCast (n i : Nat) (h : i < n) : symIdx n (i : Int) = i := by
  unfold symIdx
  have h1 : ((i : Int) % ((2 * n : Nat) : Int)) = ((i % (2 * n) : Nat) : Int) := by
    push_cast
    ring_nf
  have h2 : i % (2 * n) = i := Nat.mod_eq_of_lt (by omega)
  simp only [Nat.cast_ofNat] at h1 ⊢
  rw [show (2 : Int) * n = ((2 * n : Nat) : Int) by push_cast; ring] at *
  rw [h1, h2, Int.toNat_natCast]
  simp [h]

theorem symIdx_sub_cast (d u v i : Nat) (hi : i < d) (huv : u = v + i) :
    symIdx d ((u : Int) - (v : Nat)) = i := by
  have h1 : ((u : Int) - (v : Nat)) = (i : Int) := by omega
  rw [h1]
  exact symIdx_natCast d i hi

theorem startIdx_zeroLit (st : Option Int) (n : Nat) :
    PySlice.startIdx ⟨some 0, st⟩ n = 0 := by
  simp [PySlice.startIdx, resolveEndpoint]

/-! ### The padding round trip -/

theorem padLoop_roundtrip (mode : PadMode) (t : Ax → Nat) :
    ∀ (axes : List Ax) (sh : List Nat) (prs : List (Option Bool))
      (ws : List (Nat × Nat)) (crop : List PySlice),
      padLoop mode t axes sh prs = .ok (ws, crop) →
      sh.length = axes.length → axes.length ≤ prs.length →
      sliceShape crop (padShape ws sh) = sh ∧
      ∀ idx, inBounds sh idx = true →
        padIdx ws sh (sliceIdx crop (padShape ws sh) idx) = idx := by
  intro axes
  induction axes with
  | nil =>
    intro sh prs ws crop h hlen _
    obtain rfl : sh = [] := List.length_eq_zero.mp hlen
    simp only [padLoop] at h
    obtain ⟨rfl, rfl⟩ : ws = [] ∧ crop = [] := by
      cases prs <;> simpa [Prod.ext_iff, eq_comm] using h
    refine ⟨rfl, ?_⟩
    intro idx hidx
    cases idx with
    | nil => rfl
    | cons i idx => simp [inBounds] at hidx
  | cons ax axes ih =>
    intro sh prs ws crop h hlen hpr
    cases sh with
    | nil => simp at hlen
    | cons d sh =>
      cases prs with
      | nil => simp at hpr
      | cons pr prs =>
        simp only [padLoop] at h
        by_cases hsp : ax.isSpatial = true
        · rw [if_pos hsp] at h
          cases hw : padAxWidth mode (t ax) d with
          | error e => rw [hw] at h; exact absurd h (by simp)
          | ok pw =>
            rw [hw] at h
            cases hrec : padLoop mode t axes sh prs with
            | error e => rw [hrec] at h; exact absurd h (by simp)
            | ok pair =>
              obtain ⟨ws', crop'⟩ := pair
              rw [hrec] at h
              simp only [Except.ok.injEq, Prod.mk.injEq] at h
              obtain ⟨rfl, rfl⟩ := h
              have hlen' : sh.length = axes.length := by simpa using hlen
              have hpr' : axes.length ≤ prs.length := by simpa using hpr
              obtain ⟨ihs, ihd⟩ := ih sh prs ws' crop' hrec hlen' hpr'
              by_cases hprb : (pr == some true) = true
              · rw [if_pos hprb, if_pos hprb]
                constructor
                · simp only [padShape, sliceShape, ihs, List.cons.injEq, and_true]
                  simp only [PySlice.len, stopIdx_coe, startIdx_zeroLit]
                  omega
                · intro idx hidx
                  cases idx with
                  | nil => simp [inBounds] at hidx
                  | cons i idx =>
                    simp only [inBounds, Bool.and_eq_true, decide_eq_true_eq] at hidx
                    simp only [padShape, sliceShape, sliceIdx, padIdx, startIdx_zeroLit,
                      List.cons.injEq]
                    exact ⟨symIdx_sub_cast d (0 + i) 0 i hidx.1 (by omega), ihd idx hidx.2⟩
              · rw [if_neg hprb, if_neg hprb]
                have hstart : PySlice.startIdx ⟨some ((pw : Nat) : Int), none⟩ (pw + d + 0)
                    = pw := by
                  rw [startIdx_coe]; omega
                constructor
                · simp only [padShape, sliceShape, ihs, List.cons.injEq, and_true]
                  simp only [PySlice.len, stopIdx_none, hstart]
                  omega
                · intro idx hidx
                  cases idx with
                  | nil => simp [inBounds] at hidx
                  | cons i idx =>
                    simp only [inBounds, Bool.and_eq_true, decide_eq_true_eq] at hidx
                    simp only [padShape, sliceShape, sliceIdx, padIdx, hstart,
                      List.cons.injEq]
                    exact ⟨symIdx_sub_cast d (pw + i) pw i hidx.1 rfl, ihd idx hidx.2⟩
        · rw [if_neg hsp] at h
          cases hrec : padLoop mode t axes sh prs with
          | error e => rw [hrec] at h; exact absurd h (by simp)
          | ok pair =>
            obtain ⟨ws', crop'⟩ := pair
            rw [hrec] at h
            simp only [Except.ok.injEq, Prod.mk.injEq] at h
            obtain ⟨rfl, rfl⟩ := h
            have hlen' : sh.length = axes.length := by simpa using hlen
            have hpr' : axes.length ≤ prs.length := by simpa using hpr
            obtain ⟨ihs, ihd⟩ := ih sh prs ws' crop' hrec hlen' hpr'
            constructor
            · simp only [padShape, sliceShape, ihs, List.cons.injEq, and_true]
              simp [all_len]
            · intro idx hidx
              cases idx with
              | nil => simp [inBounds] at hidx
              | cons i idx =>
                simp only [inBounds, Bool.and_eq_true, decide_eq_true_eq] at hidx
                simp only [padShape, sliceShape, sliceIdx, padIdx, all_startIdx,
                  List.cons.injEq]
                exact ⟨symIdx_sub_cast d (0 + i) 0 i hidx.1 (by omega), ihd idx hidx.2⟩

/-- Cropping with the mapping `_pad` returns exactly inverts the padding. -/
theorem pad_crop_id (im : NDArr) (axes : List Ax) (padding : PaddingSpec)
    (pr : PadRightArg) (p : NDArr) (crop : List PySlice)
    (h : _pad im axes padding pr = .ok (p, crop))
    (hlen : im.shape.length = axes.length)
    (hpr : axes.length ≤ (pr.toList axes.length).length) :
    (_apply_crop p crop).shape = im.shape ∧
    ∀ idx, inBounds im.shape idx = true →
      (_apply_crop p crop).data idx = im.data idx := by
  unfold _pad at h
  cases hpl : padLoop padding.mode padding.target axes im.shape
      (pr.toList axes.length) with
  | error e => rw [hpl] at h; exact absurd h (by simp)
  | ok pair =>
    obtain ⟨ws, crop'⟩ := pair
    rw [hpl] at h
    dsimp only at h
    unfold npPadSymmetric at h
    by_cases hguard : hasEmptyAxisPad ws im.shape = true
    · rw [if_pos hguard] at h; exact absurd h (by simp)
    · rw [if_neg hguard] at h
      simp only [Except.ok.injEq, Prod.mk.injEq] at h
      obtain ⟨hp, hcrop⟩ := h
      obtain ⟨hs, hd⟩ := padLoop_roundtrip padding.mode padding.target axes im.shape
        (pr.toList axes.length) ws crop' hpl hlen hpr
      subst hp
      subst hcrop
      refine ⟨hs, fun idx hidx => ?_⟩
      simp only [_apply_crop, NDArr.slice]
      exact congrArg im.data (hd idx hidx)

/-! ### The fixed and dynamic padding laws -/

theorem padLoop_fixed_ok_forall3 (t : Ax → Nat) :
    ∀ (axes : List Ax) (sh : List Nat) (prs : List (Option Bool))
      (ws : List (Nat × Nat)) (crop : List PySlice),
      padLoop .fixed t axes sh prs = .ok (ws, crop) →
      sh.length = axes.length → axes.length ≤ prs.length →
      Forall3 (fun ax d pl => (ax.isSpatial = true → pl = t ax) ∧
        (ax.isSpatial = false → pl = d)) axes sh (padShape ws sh) := by
  intro axes
  induction axes with
  | nil =>
    intro sh prs ws crop h hlen _
    obtain rfl : sh = [] := List.length_eq_zero.mp hlen
    simp [Forall3, padShape]
  | cons ax axes ih =>
    intro sh prs ws crop h hlen hpr
    cases sh with
    | nil => simp at hlen
    | cons d sh =>
      cases prs with
      | nil => simp at hpr
      | cons pr prs =>
        simp only [padLoop] at h
        by_cases hsp : ax.isSpatial = true
        · rw [if_pos hsp] at h
          cases hw : padAxWidth .fixed (t ax) d with
          | error e => rw [hw] at h; exact absurd h (by simp)
          | ok pw =>
            rw [hw] at h
            cases hrec : padLoop .fixed t axes sh prs with
            | error e => rw [hrec] at h; exact absurd h (by simp)
            | ok pair =>
              obtain ⟨ws', crop'⟩ := pair
              rw [hrec] at h
              simp only [Except.ok.injEq, Prod.mk.injEq] at h
              obtain ⟨rfl, rfl⟩ := h
              have hfw : d ≤ t ax ∧ pw = t ax - d := by
                simp only [padAxWidth] at hw
                split at hw
                · cases hw
                · simp only [Except.ok.injEq] at hw
                  exact ⟨by omega, by rw [← hw]; rfl⟩
              have ihr := ih sh prs ws' crop' hrec (by simpa using hlen)
                (by simpa using hpr)
              by_cases hprb : (pr == some true) = true
              · rw [if_pos hprb]
                simp only [padShape, Forall3]
                exact ⟨⟨fun _ => by omega, fun hns => by rw [hsp] at hns; cases hns⟩, ihr⟩
              · rw [if_neg hprb]
                simp only [padShape, Forall3]
                exact ⟨⟨fun _ => by omega, fun hns => by rw [hsp] at hns; cases hns⟩, ihr⟩
        · rw [if_neg hsp] at h
          cases hrec : padLoop .fixed t axes sh prs with
          | error e => rw [hrec] at h; exact absurd h (by simp)
          | ok pair =>
            obtain ⟨ws', crop'⟩ := pair
            rw [hrec] at h
            simp only [Except.ok.injEq, Prod.mk.injEq] at h
            obtain ⟨rfl, rfl⟩ := h
            have ihr := ih sh prs ws' crop' hrec (by simpa using hlen)
              (by simpa using hpr)
            simp only [padShape, Forall3]
            exact ⟨⟨fun hs => absurd hs hsp, fun _ => by omega⟩, ihr⟩

theorem padLoop_fixed_error_iff (t : Ax → Nat) :
    ∀ (axes : List Ax) (sh : List Nat) (prs : List (Option Bool)),
      sh.length = axes.length → axes.length ≤ prs.length →
      (padLoop .fixed t axes sh prs = .error .paddingError ↔
        ∃ p ∈ axes.zip sh, p.1.isSpatial = true ∧ t p.1 < p.2) := by
  intro axes
  induction axes with
  | nil =>
    intro sh prs hlen _
    obtain rfl : sh = [] := List.length_eq_zero.mp hlen
    simp [padLoop]
  | cons ax axes ih =>
    intro sh prs hlen hpr
    cases sh with
    | nil => simp at hlen
    | cons d sh =>
      cases prs with
      | nil => simp at hpr
      | cons pr prs =>
        have ihr := ih sh prs (by simpa using hlen) (by simpa using hpr)
        simp only [padLoop]
        by_cases hsp : ax.isSpatial = true
        · rw [if_pos hsp]
          by_cases hlt : t ax < d
          · have hw : padAxWidth .fixed (t ax) d = .error .paddingError := by
              simp [padAxWidth, hlt]
            rw [hw]
            simp only [List.zip_cons_cons, List.mem_cons]
            constructor
            · intro _
              exact ⟨(ax, d), Or.inl rfl, hsp, hlt⟩
            · intro _
              trivial
          · have hw : padAxWidth .fixed (t ax) d = .ok (fixWidth (t ax) d) := by
              simp [padAxWidth, hlt]
            rw [hw]
            cases hrec : padLoop .fixed t axes sh prs with
            | error e =>
              simp only [List.zip_cons_cons, List.mem_cons]
              constructor
              · intro he
                simp only [Except.error.injEq] at he
                obtain ⟨q, hq, hq1, hq2⟩ := ihr.mp (by rw [hrec, he])
                exact ⟨q, Or.inr hq, hq1, hq2⟩
              · rintro ⟨q, hq | hq, hq1, hq2⟩
                · obtain rfl := hq
                  exact absurd hq2 hlt
                · have := ihr.mpr ⟨q, hq, hq1, hq2⟩
                  rw [hrec] at this
                  simp only [Except.error.injEq] at this
                  rw [this]
            | ok pair =>
              obtain ⟨ws', crop'⟩ := pair
              simp only [List.zip_cons_cons, List.mem_cons]
              constructor
              · intro he
                exact absurd he (by simp)
              · rintro ⟨q, hq | hq, hq1, hq2⟩
                · obtain rfl := hq
                  exact absurd hq2 hlt
                · have := ihr.mpr ⟨q, hq, hq1, hq2⟩
                  rw [hrec] at this
                  cases this
        · rw [if_neg hsp]
          cases hrec : padLoop .fixed t axes sh prs with
          | error e =>
            simp only [List.zip_cons_cons, List.mem_cons]
            constructor
            · intro he
              simp only [Except.error.injEq] at he
              obtain ⟨q, hq, hq1, hq2⟩ := ihr.mp (by rw [hrec, he])
              exact ⟨q, Or.inr hq, hq1, hq2⟩
            · rintro ⟨q, hq | hq, hq1, hq2⟩
              · obtain rfl := hq
                exact absurd hq1 hsp
              · have := ihr.mpr ⟨q, hq, hq1, hq2⟩
                rw [hrec] at this
                simp only [Except.error.injEq] at this
                rw [this]
          | ok pair =>
            obtain ⟨ws', crop'⟩ := pair
            simp only [List.zip_cons_cons, List.mem_cons]
            constructor
            · intro he
              exact absurd he (by simp)
            · rintro ⟨q, hq | hq, hq1, hq2⟩
              · obtain rfl := hq
                exact absurd hq1 hsp
              · have := ihr.mpr ⟨q, hq, hq1, hq2⟩
                rw [hrec] at this
                cases this

theorem add_dynWidth_mod (tgt d : Nat) (h : 0 < tgt) :
    (d + dynWidth tgt d) % tgt = 0 := by
  unfold dynWidth
  by_cases h0 : (d % tgt == 0) = true
  · rw [if_pos h0]
    simp only [beq_iff_eq] at h0
    simp [Nat.add_mod, h0]
  · rw [if_neg h0]
    simp only [beq_iff_eq] at h0
    have hdm := Nat.div_add_mod d tgt
    have hlt : d % tgt < tgt := Nat.mod_lt d h
    have hmul : tgt * (d / tgt + 1) = tgt * (d / tgt) + tgt := by ring
    have : d + (tgt - d % tgt) = tgt * (d / tgt + 1) := by omega
    rw [this]
    exact Nat.mul_mod_right tgt _

theorem dynWidth_zero_extent (tgt : Nat) : dynWidth tgt 0 = 0 := by
  simp [dynWidth]

theorem padLoop_dynamic_ok (t : Ax → Nat) (ht : ∀ ax, ax.isSpatial = true → 0 < t ax) :
    ∀ (axes : List Ax) (sh : List Nat) (prs : List (Option Bool)),
      sh.length = axes.length → axes.length ≤ prs.length →
      ∃ ws crop, padLoop .dynamic t axes sh prs = .ok (ws, crop) ∧
        hasEmptyAxisPad ws sh = false ∧
        Forall3 (fun ax d pl =>
          (ax.isSpatial = true → pl = d + dynWidth (t ax) d ∧ pl % t ax = 0) ∧
          (ax.isSpatial = false → pl = d)) axes sh (padShape ws sh) := by
  intro axes
  induction axes with
  | nil =>
    intro sh prs hlen _
    obtain rfl : sh = [] := List.length_eq_zero.mp hlen
    refine ⟨[], [], ?_, rfl, trivial⟩
    cases prs <;> rfl
  | cons ax axes ih =>
    intro sh prs hlen hpr
    cases sh with
    | nil => simp at hlen
    | cons d sh =>
      cases prs with
      | nil => simp at hpr
      | cons pr prs =>
        obtain ⟨ws', crop', hrec, hg, hf⟩ := ih sh prs (by simpa using hlen)
          (by simpa using hpr)
        by_cases hsp : ax.isSpatial = true
        · have hw : padAxWidth .dynamic (t ax) d = .ok (dynWidth (t ax) d) := by
            have : (t ax == 0) = false := by
              simpa using Nat.pos_iff_ne_zero.mp (ht ax hsp)
            simp [padAxWidth, this]
          refine ⟨(if (pr == some true) = true then (0, dynWidth (t ax) d)
                   else (dynWidth (t ax) d, 0)) :: ws',
                  (if (pr == some true) = true then PySlice.mk (some 0) (some (d : Int))
                   else PySlice.mk (some ((dynWidth (t ax) d : Nat) : Int)) none) :: crop',
                  ?_, ?_, ?_⟩
          · simp only [padLoop]
            rw [if_pos hsp, hw, hrec]
          · simp only [hasEmptyAxisPad, hg, Bool.or_false]
            by_cases hd : d = 0
            · subst hd
              by_cases hprb : (pr == some true) = true
              · simp [hprb, dynWidth_zero_extent]
              · simp [hprb, dynWidth_zero_extent]
            · simp [hd]
          · by_cases hprb : (pr == some true) = true
            · simp only [if_pos hprb, padShape, Forall3]
              refine ⟨⟨fun _ => ⟨by omega, ?_⟩, fun hns => by rw [hsp] at hns; cases hns⟩, hf⟩
              simpa using add_dynWidth_mod (t ax) d (ht ax hsp)
            · simp only [if_neg hprb, padShape, Forall3]
              refine ⟨⟨fun _ => ⟨by omega, ?_⟩, fun hns => by rw [hsp] at hns; cases hns⟩, hf⟩
              have := add_dynWidth_mod (t ax) d (ht ax hsp)
              have heq : dynWidth (t ax) d + d + 0 = d + dynWidth (t ax) d := by omega
              rw [heq]
              exact this
        · refine ⟨(0, 0) :: ws', PySlice.all :: crop', ?_, ?_, ?_⟩
          · simp only [padLoop]
            rw [if_neg hsp, hrec]
          · simp [hasEmptyAxisPad, hg]
          · simp only [padShape, Forall3]
            exact ⟨⟨fun hs => absurd hs hsp, fun _ => by omega⟩, hf⟩

/-! ### Claims C3, C4, C5 -/

/-- C3: padding round trip.  For every array, every spatial padding spec in
dynamic or fixed mode, and every side selection (per axis or broadcast), if
`_pad` succeeds then applying the crop mapping it returns to the padded
array yields the original array. -/
theorem claim_C3_padding_round_trip (im : NDArr) (axes : List Ax)
    (padding : PaddingSpec) (pr : PadRightArg) (p : NDArr) (crop : List PySlice)
    (h : _pad im axes padding pr = .ok (p, crop))
    (hlen : im.shape.length = axes.length)
    (hpr : axes.length ≤ (pr.toList axes.length).length) :
    (_apply_crop p crop).shape = im.shape ∧
    ∀ idx, inBounds im.shape idx = true →
      (_apply_crop p crop).data idx = im.data idx :=
  pad_crop_id im axes padding pr p crop h hlen hpr

/-- Witness for C3 at a concrete dynamically left-padded 1×7 array. -/
theorem claim_C3_witness :
    _pad exIm exAxes exDyn (.ofBool false) = .ok (exPDyn, exCropDyn) ∧
    ((_apply_crop exPDyn exCropDyn).shape = exIm.shape ∧
     ∀ idx, inBounds exIm.shape idx = true →
       (_apply_crop exPDyn exCropDyn).data idx = exIm.data idx) :=
  ⟨rfl, claim_C3_padding_round_trip exIm exAxes exDyn (.ofBool false) exPDyn exCropDyn
    rfl rfl (by decide)⟩

/-- C4: fixed padding law.  In fixed mode `_pad` raises the padding error
exactly when some spatial axis has target < extent; on success every spatial
extent of the padded array equals the target (the width being
target − extent) and non-spatial extents are unchanged. -/
theorem claim_C4_fixed_padding_law (im : NDArr) (axes : List Ax) (t : Ax → Nat)
    (pr : PadRightArg) (hlen : im.shape.length = axes.length)
    (hpr : axes.length ≤ (pr.toList axes.length).length) :
    ((_pad im axes ⟨.fixed, t⟩ pr = .error .paddingError) ↔
      ∃ q ∈ axes.zip im.shape, q.1.isSpatial = true ∧ t q.1 < q.2) ∧
    ∀ p crop, _pad im axes ⟨.fixed, t⟩ pr = .ok (p, crop) →
      Forall3 (fun ax d pl => (ax.isSpatial = true → pl = t ax) ∧
        (ax.isSpatial = false → pl = d)) axes im.shape p.shape := by
  have hiff := padLoop_fixed_error_iff t axes im.shape (pr.toList axes.length) hlen hpr
  constructor
  · unfold _pad
    cases hpl : padLoop .fixed t axes im.shape (pr.toList axes.length) with
    | error e =>
      rw [hpl] at hiff
      constructor
      · intro he
        dsimp only at he
        simp only [Except.error.injEq] at he
        exact hiff.mp (by rw [he])
      · intro hex
        have := hiff.mpr hex
        simp only [Except.error.injEq] at this
        rw [this]
    | ok pair =>
      obtain ⟨ws, cr⟩ := pair
      rw [hpl] at hiff
      constructor
      · intro he
        dsimp only at he
        unfold npPadSymmetric at he
        by_cases hguard : hasEmptyAxisPad ws im.shape = true
        · rw [if_pos hguard] at he
          exact absurd he (by simp)
        · rw [if_neg hguard] at he
          exact absurd he (by simp)
      · intro hex
        exact absurd (hiff.mpr hex) (by simp)
  · intro p crop h
    unfold _pad at h
    cases hpl : padLoop .fixed t axes im.shape (pr.toList axes.length) with
    | error e => rw [hpl] at h; exact absurd h (by simp)
    | ok pair =>
      obtain ⟨ws, cr⟩ := pair
      rw [hpl] at h
      dsimp only at h
      unfold npPadSymmetric at h
      by_cases hguard : hasEmptyAxisPad ws im.shape = true
      · rw [if_pos hguard] at h; exact absurd h (by simp)
      · rw [if_neg hguard] at h
        simp only [Except.ok.injEq, Prod.mk.injEq] at h
        obtain ⟨hp, -⟩ := h
        have := padLoop_fixed_ok_forall3 t axes im.shape (pr.toList axes.length)
          ws cr hpl hlen hpr
        subst hp
        exact this

/-- Witness for C4 at a concrete 1×7 array with fixed target 9. -/
theorem claim_C4_witness :
    ((_pad exIm exAxes ⟨.fixed, fun _ => 9⟩ (.ofBool true) = .error .paddingError) ↔
      ∃ q ∈ exAxes.zip exIm.shape, q.1.isSpatial = true ∧ (fun _ : Ax => 9) q.1 < q.2) ∧
    ∀ p crop, _pad exIm exAxes ⟨.fixed, fun _ => 9⟩ (.ofBool true) = .ok (p, crop) →
      Forall3 (fun ax d pl => (ax.isSpatial = true → pl = (fun _ : Ax => 9) ax) ∧
        (ax.isSpatial = false → pl = d)) exAxes exIm.shape p.shape :=
  claim_C4_fixed_padding_law exIm exAxes (fun _ => 9) (.ofBool true) rfl (by decide)

/-- C5: dynamic padding law.  For every array and positive per-spatial-axis
targets, `_pad` in dynamic mode succeeds; the padded extent of every spatial
axis is extent + width with width `0` when extent mod target is zero and
`target − extent mod target` otherwise — hence an exact multiple of the
target — and non-spatial axes are never padded. -/
theorem claim_C5_dynamic_padding_law (im : NDArr) (axes : List Ax) (t : Ax → Nat)
    (pr : PadRightArg) (hlen : im.shape.length = axes.length)
    (hpr : axes.length ≤ (pr.toList axes.length).length)
    (ht : ∀ ax, ax.isSpatial = true → 0 < t ax) :
    ∃ p crop, _pad im axes ⟨.dynamic, t⟩ pr = .ok (p, crop) ∧
      Forall3 (fun ax d pl =>
        (ax.isSpatial = true → pl = d + dynWidth (t ax) d ∧ pl % t ax = 0) ∧
        (ax.isSpatial = false → pl = d)) axes im.shape p.shape := by
  obtain ⟨ws, crop, hpl, hg, hf⟩ := padLoop_dynamic_ok t ht axes im.shape
    (pr.toList axes.length) hlen hpr
  refine ⟨⟨padShape ws im.shape, fun idx => im.data (padIdx ws im.shape idx)⟩,
    crop, ?_, hf⟩
  unfold _pad
  rw [hpl]
  dsimp only
  unfold npPadSymmetric
  rw [if_neg (by simp [hg])]

/-- Witness for C5 at a concrete 1×7 array with dynamic target 4. -/
theorem claim_C5_witness :
    ∃ p crop, _pad exIm exAxes ⟨.dynamic, fun _ => 4⟩ (.ofBool true) = .ok (p, crop) ∧
      Forall3 (fun ax d pl =>
        (ax.isSpatial = true → pl = d + dynWidth ((fun _ : Ax => 4) ax) d ∧
          pl % (fun _ : Ax => 4) ax = 0) ∧
        (ax.isSpatial = false → pl = d)) exAxes exIm.shape p.shape :=
  claim_C5_dynamic_padding_law exIm exAxes (fun _ => 4) (.ofBool true) rfl (by decide)
    (fun _ _ => Nat.succ_pos 3)

/-! ### Per-axis window resolution for the tile plan -/

theorem outer_startIdx (sh tsh ha i : Nat) :
    ((spatialWindows sh tsh ha i).1).startIdx sh = min (i * tsh - ha) sh := by
  show resolveEndpoint (some (max ((i : Int) * tsh - ha) 0)) 0 sh = min (i * tsh - ha) sh
  simp only [resolveEndpoint]
  split <;> omega

theorem outer_stopIdx (sh tsh ha i : Nat) :
    ((spatialWindows sh tsh ha i).1).stopIdx sh = min (i * tsh + tsh + ha) sh := by
  show resolveEndpoint (some (min ((i : Int) * tsh + tsh + ha) sh)) sh sh
      = min (i * tsh + tsh + ha) sh
  simp only [resolveEndpoint]
  split <;> omega

theorem inner_startIdx (sh tsh ha i n : Nat) :
    ((spatialWindows sh tsh ha i).2.1).startIdx n = min (i * tsh) n := by
  show resolveEndpoint (some ((i : Int) * tsh)) 0 n = min (i * tsh) n
  simp only [resolveEndpoint]
  split <;> omega

theorem inner_stopIdx (sh tsh ha i n : Nat) :
    ((spatialWindows sh tsh ha i).2.1).stopIdx n = min (min (i * tsh + tsh) sh) n := by
  show resolveEndpoint (some (min ((i : Int) * tsh + tsh) sh)) n n
      = min (min (i * tsh + tsh) sh) n
  simp only [resolveEndpoint]
  split <;> omega

theorem local_startIdx (sh tsh ha i n : Nat) :
    ((spatialWindows sh tsh ha i).2.2).startIdx n
      = min (i * tsh - (i * tsh - ha)) n := by
  show resolveEndpoint (some ((i : Int) * tsh - max ((i : Int) * tsh - ha) 0)) 0 n
      = min (i * tsh - (i * tsh - ha)) n
  simp only [resolveEndpoint]
  split <;> omega

theorem local_stopIdx (sh tsh ha i n : Nat)
    (hn : min (i * tsh + tsh + ha) sh - min (i * tsh + tsh) sh ≤ n) :
    ((spatialWindows sh tsh ha i).2.2).stopIdx n
      = n - (min (i * tsh + tsh + ha) sh - min (i * tsh + tsh) sh) := by
  show resolveEndpoint
      (if min ((i : Int) * tsh + tsh + ha) sh ≠ min ((i : Int) * tsh + tsh) sh
       then some (-(min ((i : Int) * tsh + tsh + ha) sh - min ((i : Int) * tsh + tsh) sh))
       else none) n n
      = n - (min (i * tsh + tsh + ha) sh - min (i * tsh + tsh) sh)
  split
  · simp only [resolveEndpoint]
    split <;> omega
  · simp only [resolveEndpoint]
    omega

/-! ### Structure of the tile plan -/

theorem pos_lt_extent (sh tsh i : Nat) (htsh : 0 < tsh) (hi : i < nTilesAx sh tsh) :
    i * tsh < sh := by
  have hdm := Nat.div_add_mod sh tsh
  unfold nTilesAx at hi
  by_cases h0 : (sh % tsh == 0) = true
  · rw [if_pos h0] at hi
    simp only [beq_iff_eq] at h0
    have h1 : (i + 1) * tsh ≤ (sh / tsh) * tsh := Nat.mul_le_mul_right tsh hi
    have h2 : (i + 1) * tsh = i * tsh + tsh := by ring
    have h3 : (sh / tsh) * tsh = tsh * (sh / tsh) := by ring
    omega
  · rw [if_neg h0] at hi
    simp only [beq_iff_eq] at h0
    have h1 : i * tsh ≤ (sh / tsh) * tsh := Nat.mul_le_mul_right tsh (by omega)
    have h3 : (sh / tsh) * tsh = tsh * (sh / tsh) := by ring
    have h4 : sh % tsh < tsh := Nat.mod_lt sh htsh
    omega

theorem nTilesAx_eq_ceil (sh tsh : Nat) (htsh : 0 < tsh) :
    nTilesAx sh tsh = (sh + tsh - 1) / tsh := by
  have hdm := Nat.div_add_mod sh tsh
  have hmod : sh % tsh < tsh := Nat.mod_lt sh htsh
  unfold nTilesAx
  by_cases h0 : (sh % tsh == 0) = true
  · rw [if_pos h0]
    simp only [beq_iff_eq] at h0
    symm
    apply Nat.div_eq_of_lt_le
    · have : (sh / tsh) * tsh = tsh * (sh / tsh) := by ring
      omega
    · have : (sh / tsh + 1) * tsh = tsh * (sh / tsh) + tsh := by ring
      omega
  · rw [if_neg h0]
    simp only [beq_iff_eq] at h0
    symm
    apply Nat.div_eq_of_lt_le
    · have : (sh / tsh + 1) * tsh = tsh * (sh / tsh) + tsh := by ring
      omega
    · have : (sh / tsh + 1 + 1) * tsh = tsh * (sh / tsh) + tsh + tsh := by ring
      omega

theorem mem_cartProd :
    ∀ (ns sp : List Nat), sp ∈ cartProd ns ↔ List.Forall₂ (fun i n => i < n) sp ns := by
  intro ns
  induction ns with
  | nil =>
    intro sp
    simp only [cartProd, List.mem_singleton]
    constructor
    · rintro rfl; exact List.Forall₂.nil
    · intro h; cases h; rfl
  | cons n ns ih =>
    intro sp
    simp only [cartProd, List.mem_flatMap, List.mem_map, List.mem_range]
    constructor
    · rintro ⟨i, hi, tl, htl, rfl⟩
      exact List.Forall₂.cons hi ((ih tl).mp htl)
    · intro h
      cases h with
      | cons hi htl => exact ⟨_, hi, _, (ih _).mpr htl, rfl⟩

theorem unzip3_fst : ∀ l : List (PySlice × PySlice × PySlice),
    (unzip3 l).1 = l.map (·.1) := by
  intro l
  induction l with
  | nil => rfl
  | cons a l ih => obtain ⟨x, y, z⟩ := a; simp [unzip3, ih]

theorem unzip3_snd1 : ∀ l : List (PySlice × PySlice × PySlice),
    (unzip3 l).2.1 = l.map (·.2.1) := by
  intro l
  induction l with
  | nil => rfl
  | cons a l ih => obtain ⟨x, y, z⟩ := a; simp [unzip3, ih]

theorem unzip3_snd2 : ∀ l : List (PySlice × PySlice × PySlice),
    (unzip3 l).2.2 = l.map (·.2.2) := by
  intro l
  induction l with
  | nil => rfl
  | cons a l ih => obtain ⟨x, y, z⟩ := a; simp [unzip3, ih]

theorem axisWindows_tileAxOk (tile halo : Ax → Nat) :
    ∀ (axes : List Ax) (shape sp : List Nat),
      shape.length = axes.length →
      sp ∈ cartProd (tileRanges tile axes shape) →
      Forall3 (TileAxOk tile halo) axes shape (axisWindows tile halo axes shape sp) := by
  intro axes
  induction axes with
  | nil =>
    intro shape sp hlen _
    obtain rfl : shape = [] := List.length_eq_zero.mp hlen
    simp [axisWindows, Forall3]
  | cons ax axes ih =>
    intro shape sp hlen hsp
    cases shape with
    | nil => simp at hlen
    | cons sh shape =>
      by_cases hspat : ax.isSpatial = true
      · rw [show tileRanges tile (ax :: axes) (sh :: shape)
            = nTilesAx sh (tile ax) :: tileRanges tile axes shape by
          simp [tileRanges, hspat]] at hsp
        rw [mem_cartProd] at hsp
        cases hsp with
        | cons hi htl =>
          rename_i i sp'
          rw [show axisWindows tile halo (ax :: axes) (sh :: shape) (i :: sp')
              = spatialWindows sh (tile ax) (halo ax) i ::
                  axisWindows tile halo axes shape sp' by
            simp [axisWindows, hspat]]
          refine ⟨?_, ih shape sp' (by simpa using hlen) ((mem_cartProd _ _).mpr htl)⟩
          unfold TileAxOk
          rw [if_pos hspat]
          exact ⟨i, hi, rfl⟩
      · rw [show tileRanges tile (ax :: axes) (sh :: shape)
            = tileRanges tile axes shape by simp [tileRanges, hspat]] at hsp
        rw [show axisWindows tile halo (ax :: axes) (sh :: shape) sp
            = (PySlice.all, PySlice.all, PySlice.all) ::
                axisWindows tile halo axes shape sp by
          simp [axisWindows, hspat]]
        refine ⟨?_, ih shape sp (by simpa using hlen) hsp⟩
        unfold TileAxOk
        rw [if_neg hspat]

theorem mem_get_tiling (shape : List Nat) (tile halo : Ax → Nat) (axes : List Ax)
    (w : List PySlice × List PySlice × List PySlice)
    (hlen : shape.length = axes.length)
    (hw : w ∈ _get_tiling shape tile halo axes) :
    ∃ ws, w = unzip3 ws ∧ Forall3 (TileAxOk tile halo) axes shape ws := by
  simp only [_get_tiling, List.mem_map] at hw
  obtain ⟨sp, hsp, rfl⟩ := hw
  exact ⟨_, rfl, axisWindows_tileAxOk tile halo axes shape sp hlen hsp⟩

theorem Forall3_lengths {P : α → β → γ → Prop} :
    ∀ {l₁ : List α} {l₂ : List β} {l₃ : List γ}, Forall3 P l₁ l₂ l₃ →
      l₁.length = l₂.length ∧ l₂.length = l₃.length := by
  intro l₁
  induction l₁ with
  | nil =>
    intro l₂ l₃ h
    cases l₂ with
    | nil => cases l₃ with
      | nil => exact ⟨rfl, rfl⟩
      | cons _ _ => exact h.elim
    | cons _ _ => cases l₃ <;> exact h.elim
  | cons a l₁ ih =>
    intro l₂ l₃ h
    cases l₂ with
    | nil => cases l₃ <;> exact h.elim
    | cons b l₂ =>
      cases l₃ with
      | nil => exact h.elim
      | cons c l₃ =>
        obtain ⟨-, hrest⟩ := h
        obtain ⟨h1, h2⟩ := ih hrest
        exact ⟨by simpa using h1, by simpa using h2⟩

theorem sliceShape_length : ∀ (sl : List PySlice) (sh : List Nat),
    (sliceShape sl sh).length = min sl.length sh.length := by
  intro sl
  induction sl with
  | nil => intro sh; cases sh <;> simp [sliceShape]
  | cons s sl ih =>
    intro sh
    cases sh with
    | nil => simp [sliceShape]
    | cons n sh => simp [sliceShape, ih]; omega

theorem tilePadRight_length : ∀ (axes : List Ax) (sl : List PySlice),
    (tilePadRight axes sl).length = min axes.length sl.length := by
  intro axes
  induction axes with
  | nil => intro sl; cases sl <;> simp [tilePadRight]
  | cons ax axes ih =>
    intro sl
    cases sl with
    | nil => simp [tilePadRight]
    | cons s sl => simp [tilePadRight, ih]; omega

theorem padLoop_cons_spatial (mode : PadMode) (t : Ax → Nat) (ax : Ax)
    (axes : List Ax) (d : Nat) (sh : List Nat) (pr : Option Bool)
    (prs : List (Option Bool)) (pw : Nat) (pws : List (Nat × Nat))
    (crop : List PySlice) (hspat : ax.isSpatial = true)
    (hw : padAxWidth mode (t ax) d = .ok pw)
    (hrec : padLoop mode t axes sh prs = .ok (pws, crop)) :
    ∃ w0 c0, padLoop mode t (ax :: axes) (d :: sh) (pr :: prs)
        = .ok (w0 :: pws, c0 :: crop) ∧ w0.1 + w0.2 = pw := by
  by_cases hb : (pr == some true) = true
  · refine ⟨(0, pw), PySlice.mk (some 0) (some (d : Int)), ?_, by omega⟩
    simp only [padLoop]
    rw [if_pos hspat, hw, hrec]
    simp [hb]
  · refine ⟨(pw, 0), PySlice.mk (some (pw : Int)) none, ?_, by omega⟩
    simp only [padLoop]
    rw [if_pos hspat, hw, hrec]
    simp [hb]

theorem padLoop_cons_nonspatial (mode : PadMode) (t : Ax → Nat) (ax : Ax)
    (axes : List Ax) (d : Nat) (sh : List Nat) (pr : Option Bool)
    (prs : List (Option Bool)) (pws : List (Nat × Nat))
    (crop : List PySlice) (hspat : ax.isSpatial = false)
    (hrec : padLoop mode t axes sh prs = .ok (pws, crop)) :
    padLoop mode t (ax :: axes) (d :: sh) (pr :: prs)
      = .ok ((0, 0) :: pws, PySlice.all :: crop) := by
  simp only [padLoop]
  rw [if_neg (by simp [hspat]), hrec]

/-- On the tiled path the fixed padding of the outer tile always succeeds
(its target is at least the outer extent) and never pads an empty axis. -/
theorem padLoop_tiled_ok (tile halo : Ax → Nat)
    (htile : ∀ ax, ax.isSpatial = true → 0 < tile ax) :
    ∀ (axes : List Ax) (shape : List Nat)
      (ws : List (PySlice × PySlice × PySlice)),
      Forall3 (TileAxOk tile halo) axes shape ws →
      ∃ pws crop,
        padLoop .fixed (fun ax => tile ax + 2 * halo ax) axes
            (sliceShape (ws.map (·.1)) shape)
            (tilePadRight axes (ws.map (·.1))) = .ok (pws, crop) ∧
        hasEmptyAxisPad pws (sliceShape (ws.map (·.1)) shape) = false := by
  intro axes
  induction axes with
  | nil =>
    intro shape ws h
    cases shape with
    | nil =>
      cases ws with
      | nil => exact ⟨[], [], rfl, rfl⟩
      | cons _ _ => exact h.elim
    | cons _ _ => cases ws <;> exact h.elim
  | cons ax axes ih =>
    intro shape ws h
    cases shape with
    | nil => cases ws <;> exact h.elim
    | cons sh shape =>
      cases ws with
      | nil => exact h.elim
      | cons w ws =>
        obtain ⟨hw, hrest⟩ := h
        obtain ⟨pws', crop', hrec, hg⟩ := ih shape ws hrest
        by_cases hspat : ax.isSpatial = true
        · unfold TileAxOk at hw
          rw [if_pos hspat] at hw
          obtain ⟨i, hi, rfl⟩ := hw
          have hpos := pos_lt_extent sh (tile ax) i (htile ax hspat) hi
          have hlen_eq : ((spatialWindows sh (tile ax) (halo ax) i).1).len sh
              = min (i * tile ax + tile ax + halo ax) sh
                - min (i * tile ax - halo ax) sh := by
            unfold PySlice.len
            rw [outer_startIdx, outer_stopIdx]
          have hnotlt : ¬ (tile ax + 2 * halo ax
              < ((spatialWindows sh (tile ax) (halo ax) i).1).len sh) := by
            rw [hlen_eq]; omega
          have hposlen : ((spatialWindows sh (tile ax) (halo ax) i).1).len sh ≠ 0 := by
            rw [hlen_eq]
            have := htile ax hspat
            omega
          have hwidth : padAxWidth .fixed
              ((fun a => tile a + 2 * halo a) ax)
              (((spatialWindows sh (tile ax) (halo ax) i).1).len sh)
              = .ok (fixWidth (tile ax + 2 * halo ax)
                (((spatialWindows sh (tile ax) (halo ax) i).1).len sh)) := by
            simp [padAxWidth, hnotlt]
          obtain ⟨w0, c0, hpe, -⟩ := padLoop_cons_spatial .fixed
            (fun a => tile a + 2 * halo a) ax axes
            (((spatialWindows sh (tile ax) (halo ax) i).1).len sh)
            (sliceShape (ws.map (·.1)) shape)
            (some ((spatialWindows sh (tile ax) (halo ax) i).1.start == some 0))
            (tilePadRight axes (ws.map (·.1))) _ pws' crop' hspat hwidth hrec
          refine ⟨w0 :: pws', c0 :: crop', ?_, ?_⟩
          · simp only [List.map_cons, sliceShape, tilePadRight, hspat, if_pos]
            exact hpe
          · simp only [List.map_cons, sliceShape, hasEmptyAxisPad, hg, Bool.or_false]
            simp [hposlen]
        · have hwn : w = (PySlice.all, PySlice.all, PySlice.all) := by
            unfold TileAxOk at hw
            rwa [if_neg hspat] at hw
          subst hwn
          refine ⟨(0, 0) :: pws', PySlice.all :: crop', ?_, ?_⟩
          · simp only [List.map_cons, sliceShape, tilePadRight, hspat, Bool.false_eq_true,
              if_false]
            exact padLoop_cons_nonspatial .fixed (fun a => tile a + 2 * halo a) ax axes
              (PySlice.all.len sh) (sliceShape (ws.map (·.1)) shape) none
              (tilePadRight axes (ws.map (·.1))) pws' crop'
              (by simpa using hspat) hrec
          · simp only [List.map_cons, sliceShape, hasEmptyAxisPad, hg, Bool.or_false]
            simp

/-- Reading the local window of the cropped per-tile result at the relative
position of an inner-window point lands in bounds of the outer tile and maps
back to the original absolute position. -/
theorem tile_localize (tile halo : Ax → Nat)
    (htile : ∀ ax, ax.isSpatial = true → 0 < tile ax) :
    ∀ (axes : List Ax) (shape : List Nat)
      (ws : List (PySlice × PySlice × PySlice)) (idx : List Nat),
      Forall3 (TileAxOk tile halo) axes shape ws →
      inWin (ws.map (·.2.1)) shape idx = true →
      inBounds (sliceShape (ws.map (·.1)) shape)
        (sliceIdx (ws.map (·.2.2)) (sliceShape (ws.map (·.1)) shape)
          (relIdx (ws.map (·.2.1)) shape idx)) = true ∧
      sliceIdx (ws.map (·.1)) shape
        (sliceIdx (ws.map (·.2.2)) (sliceShape (ws.map (·.1)) shape)
          (relIdx (ws.map (·.2.1)) shape idx)) = idx := by
  intro axes
  induction axes with
  | nil =>
    intro shape ws idx hf hW
    cases shape with
    | cons _ _ => cases ws <;> exact hf.elim
    | nil =>
      cases ws with
      | cons _ _ => exact hf.elim
      | nil =>
        cases idx with
        | nil => exact ⟨rfl, rfl⟩
        | cons q idx => simp [inWin] at hW
  | cons ax axes ih =>
    intro shape ws idx hf hW
    cases shape with
    | nil => cases ws <;> exact hf.elim
    | cons sh shape =>
      cases ws with
      | nil => exact hf.elim
      | cons w ws =>
        obtain ⟨hw, hrest⟩ := hf
        cases idx with
        | nil => simp [inWin] at hW
        | cons q idx =>
          simp only [List.map_cons, inWin, Bool.and_eq_true, decide_eq_true_eq] at hW
          obtain ⟨⟨hq1, hq2⟩, hWrest⟩ := hW
          obtain ⟨ih1, ih2⟩ := ih shape ws idx hrest hWrest
          by_cases hspat : ax.isSpatial = true
          · unfold TileAxOk at hw
            rw [if_pos hspat] at hw
            obtain ⟨i, hi, rfl⟩ := hw
            have htsh := htile ax hspat
            have hpos := pos_lt_extent sh (tile ax) i htsh hi
            rw [inner_startIdx] at hq1
            rw [inner_stopIdx] at hq2
            have hlen_eq : ((spatialWindows sh (tile ax) (halo ax) i).1).len sh
                = min (i * tile ax + tile ax + halo ax) sh
                  - min (i * tile ax - halo ax) sh := by
              unfold PySlice.len
              rw [outer_startIdx, outer_stopIdx]
            constructor
            · simp only [List.map_cons, sliceShape, sliceIdx, relIdx, inBounds,
                Bool.and_eq_true, decide_eq_true_eq]
              refine ⟨?_, ih1⟩
              rw [inner_startIdx, local_startIdx, hlen_eq]
              omega
            · simp only [List.map_cons, sliceShape, sliceIdx, relIdx, List.cons.injEq]
              refine ⟨?_, ih2⟩
              rw [inner_startIdx, local_startIdx, hlen_eq, outer_startIdx]
              omega
          · have hwn : w = (PySlice.all, PySlice.all, PySlice.all) := by
              unfold TileAxOk at hw
              rwa [if_neg hspat] at hw
            subst hwn
            rw [all_startIdx] at hq1
            rw [all_stopIdx] at hq2
            constructor
            · simp only [List.map_cons, sliceShape, sliceIdx, relIdx, inBounds,
                Bool.and_eq_true, decide_eq_true_eq]
              refine ⟨?_, ih1⟩
              simp only [all_startIdx, all_len]
              omega
            · simp only [List.map_cons, sliceShape, sliceIdx, relIdx, List.cons.injEq]
              refine ⟨?_, ih2⟩
              simp only [all_startIdx, all_len]
              omega

/-- When the leading axis is non-spatial and the leading extent is 1, every
outer tile keeps a leading extent of 1: its leading window is `slice(None)`,
so the `len(inputs) == len(input_specs)` assert of `predict_with_padding`
passes on each loaded tile. -/
theorem head_slice_one (tile halo : Ax → Nat) (a0 : Ax) (axes : List Ax)
    (input : NDArr) (ws : List (PySlice × PySlice × PySlice))
    (hhead : axes.head? = some a0) (hns : a0.isSpatial = false)
    (hone : input.shape.head? = some 1)
    (hf : Forall3 (TileAxOk tile halo) axes input.shape ws) :
    (input.slice (ws.map (·.1))).shape.head? = some 1 := by
  cases axes with
  | nil => simp at hhead
  | cons a axes =>
    simp only [List.head?_cons, Option.some.injEq] at hhead
    subst hhead
    cases hS : input.shape with
    | nil => rw [hS] at hone; simp at hone
    | cons n sh =>
      rw [hS] at hone hf
      simp only [List.head?_cons, Option.some.injEq] at hone
      subst hone
      cases ws with
      | nil => exact hf.elim
      | cons w ws =>
        obtain ⟨hw, -⟩ := hf
        have hwn : w = (PySlice.all, PySlice.all, PySlice.all) := by
          unfold TileAxOk at hw
          rwa [if_neg (by simp [hns])] at hw
        subst hwn
        show (sliceShape (((PySlice.all, PySlice.all, PySlice.all) :: ws).map (·.1))
            input.shape).head? = some 1
        rw [hS]
        simp [sliceShape, all_len]

/-- On the tiled path, padded prediction with the identity predictor gives
back the outer tile exactly.  The hypotheses `hkeys` and `hfirst` discharge
the asserts of `predict_with_padding`: the spatial key set of the line-241
padding dict is admissible, and the loaded tile has leading extent 1. -/
theorem tile_predict_padded_id (tile halo : Ax → Nat)
    (htile : ∀ ax, ax.isSpatial = true → 0 < tile ax)
    (input : NDArr) (axes : List Ax) (ws : List (PySlice × PySlice × PySlice))
    (hf : Forall3 (TileAxOk tile halo) axes input.shape ws)
    (hkeys : spatialKeyCountOk axes = true)
    (hfirst : (input.slice (ws.map (·.1))).shape.head? = some 1) :
    ∃ res, predict_with_padding id (input.slice (ws.map (·.1))) axes
        (tiledPaddingSpec tile halo)
        (.ofList (tilePadRight axes (ws.map (·.1)))) = .ok res ∧
      res.shape = (input.slice (ws.map (·.1))).shape ∧
      ∀ j, inBounds (input.slice (ws.map (·.1))).shape j = true →
        res.data j = (input.slice (ws.map (·.1))).data j := by
  obtain ⟨hl1, hl2⟩ := Forall3_lengths hf
  obtain ⟨pws, crop, hpl, hguard⟩ := padLoop_tiled_ok tile halo htile axes input.shape ws hf
  have hshape : (input.slice (ws.map (·.1))).shape
      = sliceShape (ws.map (·.1)) input.shape := rfl
  have hlen : (input.slice (ws.map (·.1))).shape.length = axes.length := by
    rw [hshape, sliceShape_length]
    simp only [List.length_map]
    omega
  have hprlen : axes.length ≤
      ((PadRightArg.ofList (tilePadRight axes (ws.map (·.1)))).toList
        axes.length).length := by
    simp only [PadRightArg.toList, tilePadRight_length, List.length_map]
    omega
  have hpad : _pad (input.slice (ws.map (·.1))) axes (tiledPaddingSpec tile halo)
      (.ofList (tilePadRight axes (ws.map (·.1))))
      = .ok (⟨padShape pws (input.slice (ws.map (·.1))).shape,
          fun idx => (input.slice (ws.map (·.1))).data
            (padIdx pws (input.slice (ws.map (·.1))).shape idx)⟩, crop) := by
    unfold _pad
    rw [show padLoop (tiledPaddingSpec tile halo).mode (tiledPaddingSpec tile halo).target
          axes (input.slice (ws.map (·.1))).shape
          ((PadRightArg.ofList (tilePadRight axes (ws.map (·.1)))).toList axes.length)
        = .ok (pws, crop) from hpl]
    dsimp only
    unfold npPadSymmetric
    rw [if_neg (by rw [hshape, hguard]; simp)]
  obtain ⟨hs, hd⟩ := pad_crop_id (input.slice (ws.map (·.1))) axes
    (tiledPaddingSpec tile halo) (.ofList (tilePadRight axes (ws.map (·.1))))
    _ crop hpad hlen hprlen
  refine ⟨_, ?_, hs, hd⟩
  obtain ⟨t, hsh1⟩ : ∃ t, (input.slice (ws.map (·.1))).shape = 1 :: t := by
    cases hS : (input.slice (ws.map (·.1))).shape with
    | nil => rw [hS] at hfirst; simp at hfirst
    | cons n t =>
      rw [hS] at hfirst
      simp only [List.head?_cons, Option.some.injEq] at hfirst
      exact ⟨t, by rw [hfirst]⟩
  unfold predict_with_padding
  rw [hsh1]
  dsimp only
  rw [if_neg (by omega)]
  rw [show (!spatialKeyCountOk axes) = false by rw [hkeys]; rfl]
  rw [if_neg (by simp)]
  rw [hpad, hsh1]
  rfl

/-- One tile step of the identity-predictor tiled prediction writes the
input values into the inner window and leaves everything else unchanged. -/
theorem tiledStep_id (tile halo : Ax → Nat)
    (htile : ∀ ax, ax.isSpatial = true → 0 < tile ax)
    (input out : NDArr) (axes : List Ax)
    (ws : List (PySlice × PySlice × PySlice))
    (hf : Forall3 (TileAxOk tile halo) axes input.shape ws)
    (hkeys : spatialKeyCountOk axes = true)
    (hfirst : (input.slice (ws.map (·.1))).shape.head? = some 1)
    (hout : out.shape = input.shape) :
    ∃ out2, tiledStep id input axes (tiledPaddingSpec tile halo) out (unzip3 ws)
        = .ok out2 ∧
      out2.shape = out.shape ∧
      ∀ idx,
        (inWin (ws.map (·.2.1)) input.shape idx = true →
          out2.data idx = input.data idx) ∧
        (inWin (ws.map (·.2.1)) input.shape idx = false →
          out2.data idx = out.data idx) := by
  obtain ⟨res, hres, hrs, hrd⟩ :=
    tile_predict_padded_id tile halo htile input axes ws hf hkeys hfirst
  refine ⟨out.setSlice ((unzip3 ws).2.1) (res.slice ((unzip3 ws).2.2)), ?_, rfl, ?_⟩
  · unfold tiledStep
    dsimp only
    rw [unzip3_fst, hres]
  · intro idx
    constructor
    · intro hwin
      show (if inWin ((unzip3 ws).2.1) out.shape idx = true
            then (res.slice ((unzip3 ws).2.2)).data (relIdx ((unzip3 ws).2.1) out.shape idx)
            else out.data idx) = input.data idx
      rw [unzip3_snd1, unzip3_snd2, hout, if_pos hwin]
      obtain ⟨hIn, hEq⟩ := tile_localize tile halo htile axes input.shape ws idx hf hwin
      have hrs' : res.shape = sliceShape (ws.map (·.1)) input.shape := hrs
      show res.data (sliceIdx (ws.map (·.2.2)) res.shape
        (relIdx (ws.map (·.2.1)) input.shape idx)) = input.data idx
      rw [hrs']
      have hrd' : ∀ j, inBounds (sliceShape (ws.map (·.1)) input.shape) j = true →
          res.data j = input.data (sliceIdx (ws.map (·.1)) input.shape j) := hrd
      rw [hrd' _ hIn, hEq]
    · intro hwin
      show (if inWin ((unzip3 ws).2.1) out.shape idx = true
            then (res.slice ((unzip3 ws).2.2)).data (relIdx ((unzip3 ws).2.1) out.shape idx)
            else out.data idx) = out.data idx
      rw [unzip3_snd1, hout, if_neg (by rw [hwin]; simp)]

/-- Folding the identity tile step over any sub-collection of the tile plan
succeeds, writes the input into every covered position and leaves uncovered
positions untouched. -/
theorem fold_tiles_id (tile halo : Ax → Nat)
    (htile : ∀ ax, ax.isSpatial = true → 0 < tile ax) (input : NDArr)
    (axes : List Ax) (hkeys : spatialKeyCountOk axes = true)
    (a0 : Ax) (hhead : axes.head? = some a0) (hns : a0.isSpatial = false)
    (hone : input.shape.head? = some 1) :
    ∀ (ts : List (List PySlice × List PySlice × List PySlice)),
      (∀ t ∈ ts, ∃ ws, t = unzip3 ws ∧ Forall3 (TileAxOk tile halo) axes input.shape ws) →
      ∀ out : NDArr, out.shape = input.shape →
      ∃ fin, ts.foldlM (tiledStep id input axes (tiledPaddingSpec tile halo)) out
          = .ok fin ∧
        fin.shape = input.shape ∧
        ∀ idx,
          ((∃ t ∈ ts, inWin t.2.1 input.shape idx = true) →
            fin.data idx = input.data idx) ∧
          ((∀ t ∈ ts, inWin t.2.1 input.shape idx = false) →
            fin.data idx = out.data idx) := by
  intro ts
  induction ts with
  | nil =>
    intro _ out hosh
    refine ⟨out, rfl, hosh, fun idx => ⟨?_, fun _ => rfl⟩⟩
    rintro ⟨t, ht, -⟩
    exact absurd ht (List.not_mem_nil t)
  | cons t ts ih =>
    intro hmem out hosh
    obtain ⟨ws, rfl, hf⟩ := hmem _ (List.mem_cons_self t ts)
    obtain ⟨out2, hstep, hsh2, hd2⟩ := tiledStep_id tile halo htile input out axes ws hf
      hkeys (head_slice_one tile halo a0 axes input ws hhead hns hone hf) hosh
    obtain ⟨fin, hfold, hfsh, hfd⟩ := ih (fun t' ht' => hmem t' (List.mem_cons_of_mem _ ht'))
      out2 (hsh2.trans hosh)
    refine ⟨fin, ?_, hfsh, ?_⟩
    · rw [List.foldlM_cons, hstep]
      exact hfold
    · intro idx
      constructor
      · rintro ⟨t', ht', hwin⟩
        by_cases hc : ∃ u ∈ ts, inWin u.2.1 input.shape idx = true
        · exact (hfd idx).1 hc
        · have hall : ∀ u ∈ ts, inWin u.2.1 input.shape idx = false := by
            intro u hu
            by_contra hne
            exact hc ⟨u, hu, by simpa using hne⟩
          rw [(hfd idx).2 hall]
          rcases List.mem_cons.mp ht' with rfl | htl
          · rw [unzip3_snd1] at hwin
            exact (hd2 idx).1 hwin
          · exact absurd hwin (by rw [hall t' htl]; simp)
      · intro hall
        rw [(hfd idx).2 (fun u hu => hall u (List.mem_cons_of_mem _ hu))]
        have hhead := hall _ (List.mem_cons_self _ _)
        rw [unzip3_snd1] at hhead
        exact (hd2 idx).2 hhead

theorem div_lt_nTilesAx (sh tsh q : Nat) (_htsh : 0 < tsh) (hq : q < sh) :
    q / tsh < nTilesAx sh tsh := by
  unfold nTilesAx
  by_cases h0 : (sh % tsh == 0) = true
  · rw [if_pos h0]
    simp only [beq_iff_eq] at h0
    exact Nat.div_lt_div_of_lt_of_dvd (Nat.dvd_of_mod_eq_zero h0) hq
  · rw [if_neg h0]
    have : q / tsh ≤ sh / tsh := Nat.div_le_div_right (Nat.le_of_lt hq)
    omega

/-- The tile index vector `q / tile_extent` selects a tile of the plan whose
inner window contains the position. -/
theorem tileIdxOf_spec (tile halo : Ax → Nat)
    (htile : ∀ ax, ax.isSpatial = true → 0 < tile ax) :
    ∀ (axes : List Ax) (shape idx : List Nat),
      shape.length = axes.length →
      inBounds shape idx = true →
      tileIdxOf tile axes idx ∈ cartProd (tileRanges tile axes shape) ∧
      inWin ((axisWindows tile halo axes shape (tileIdxOf tile axes idx)).map (·.2.1))
        shape idx = true := by
  intro axes
  induction axes with
  | nil =>
    intro shape idx hlen hb
    obtain rfl : shape = [] := List.length_eq_zero.mp hlen
    cases idx with
    | nil => exact ⟨by simp [tileIdxOf, tileRanges, cartProd, axisWindows, inWin], rfl⟩
    | cons q idx => simp [inBounds] at hb
  | cons ax axes ih =>
    intro shape idx hlen hb
    cases shape with
    | nil => simp at hlen
    | cons sh shape =>
      cases idx with
      | nil => simp [inBounds] at hb
      | cons q idx =>
        simp only [inBounds, Bool.and_eq_true, decide_eq_true_eq] at hb
        obtain ⟨hq, hbrest⟩ := hb
        obtain ⟨ihm, ihw⟩ := ih shape idx (by simpa using hlen) hbrest
        by_cases hspat : ax.isSpatial = true
        · have htsh := htile ax hspat
          rw [show tileIdxOf tile (ax :: axes) (q :: idx)
              = (q / tile ax) :: tileIdxOf tile axes idx by simp [tileIdxOf, hspat]]
          rw [show tileRanges tile (ax :: axes) (sh :: shape)
              = nTilesAx sh (tile ax) :: tileRanges tile axes shape by
            simp [tileRanges, hspat]]
          constructor
          · rw [mem_cartProd]
            exact List.Forall₂.cons (div_lt_nTilesAx sh (tile ax) q htsh hq)
              ((mem_cartProd _ _).mp ihm)
          · rw [show axisWindows tile halo (ax :: axes) (sh :: shape)
                ((q / tile ax) :: tileIdxOf tile axes idx)
                = spatialWindows sh (tile ax) (halo ax) (q / tile ax) ::
                    axisWindows tile halo axes shape (tileIdxOf tile axes idx) by
              simp [axisWindows, hspat]]
            simp only [List.map_cons, inWin, Bool.and_eq_true, decide_eq_true_eq]
            refine ⟨⟨?_, ?_⟩, ihw⟩
            · rw [inner_startIdx]
              have := Nat.div_mul_le_self q (tile ax)
              omega
            · rw [inner_stopIdx]
              have hdm := Nat.div_add_mod q (tile ax)
              have hmod : q % tile ax < tile ax := Nat.mod_lt q htsh
              have hcomm : (q / tile ax) * tile ax = tile ax * (q / tile ax) := by ring
              omega
        · rw [show tileIdxOf tile (ax :: axes) (q :: idx)
              = tileIdxOf tile axes idx by simp [tileIdxOf, hspat]]
          rw [show tileRanges tile (ax :: axes) (sh :: shape)
              = tileRanges tile axes shape by simp [tileRanges, hspat]]
          refine ⟨ihm, ?_⟩
          rw [show axisWindows tile halo (ax :: axes) (sh :: shape)
              (tileIdxOf tile axes idx)
              = (PySlice.all, PySlice.all, PySlice.all) ::
                  axisWindows tile halo axes shape (tileIdxOf tile axes idx) by
            simp [axisWindows, hspat]]
          simp only [List.map_cons, inWin, Bool.and_eq_true, decide_eq_true_eq]
          exact ⟨⟨by simp [all_startIdx], by rw [all_stopIdx]; omega⟩, ihw⟩

theorem tile_cover_exists (tile halo : Ax → Nat)
    (htile : ∀ ax, ax.isSpatial = true → 0 < tile ax)
    (axes : List Ax) (shape idx : List Nat)
    (hlen : shape.length = axes.length)
    (hb : inBounds shape idx = true) :
    ∃ t ∈ _get_tiling shape tile halo axes, inWin t.2.1 shape idx = true := by
  obtain ⟨hm, hw⟩ := tileIdxOf_spec tile halo htile axes shape idx hlen hb
  refine ⟨unzip3 (axisWindows tile halo axes shape (tileIdxOf tile axes idx)), ?_, ?_⟩
  · simp only [_get_tiling, List.mem_map]
    exact ⟨_, hm, rfl⟩
  · rw [unzip3_snd1]
    exact hw

/-! ### Counting tiles: the partition property -/

theorem length_cartProd : ∀ ns : List Nat, (cartProd ns).length = ns.prod := by
  intro ns
  induction ns with
  | nil => rfl
  | cons n ns ih =>
    simp only [cartProd, List.length_flatMap, Function.comp_def, List.length_map, ih,
      List.map_const']
    simp [List.sum_replicate, List.prod_cons, Nat.smul_one_eq_cast]

theorem countP_flatMap_cons (ns : List Nat) (p : Nat → Bool)
    (ps : List (Nat → Bool)) :
    ∀ l : List Nat,
      (l.flatMap fun i => (cartProd ns).map (i :: ·)).countP (matchesL (p :: ps))
        = l.countP p * (cartProd ns).countP (matchesL ps) := by
  intro l
  induction l with
  | nil => simp
  | cons i l ih =>
    rw [List.flatMap_cons, List.countP_append, ih, List.countP_map, List.countP_cons]
    have hmap : ((cartProd ns).countP (matchesL (p :: ps) ∘ (i :: ·)))
        = if p i = true then (cartProd ns).countP (matchesL ps) else 0 := by
      by_cases hp : p i = true
      · rw [if_pos hp]
        apply List.countP_congr
        intro sp _
        simp [Function.comp, matchesL, hp]
      · rw [if_neg hp]
        rw [List.countP_eq_zero]
        intro sp _
        simp only [Function.comp, matchesL, Bool.and_eq_true]
        rintro ⟨hpi, -⟩
        exact hp hpi
    rw [hmap]
    by_cases hp : p i = true
    · rw [if_pos hp, if_pos hp]
      ring
    · rw [if_neg hp, if_neg hp]
      ring

theorem countP_cartProd_matches :
    ∀ (ps : List (Nat → Bool)) (ns : List Nat), ps.length = ns.length →
      (cartProd ns).countP (matchesL ps)
        = (List.zipWith (fun p n => (List.range n).countP p) ps ns).prod := by
  intro ps
  induction ps with
  | nil =>
    intro ns hlen
    obtain rfl : ns = [] := List.length_eq_zero.mp hlen.symm
    simp [cartProd, matchesL]
  | cons p ps ih =>
    intro ns hlen
    cases ns with
    | nil => simp at hlen
    | cons n ns =>
      simp only [cartProd, List.zipWith_cons_cons, List.prod_cons]
      rw [countP_flatMap_cons ns p ps (List.range n), ih ns (by simpa using hlen)]

theorem countP_eq_one_range (d : Nat) :
    ∀ n : Nat, d < n → (List.range n).countP (fun i => decide (i = d)) = 1 := by
  intro n
  induction n with
  | zero => intro h; omega
  | succ n ih =>
    intro h
    rw [show List.range (n + 1) = List.range n ++ [n] from List.range_succ n]
    rw [List.countP_append]
    by_cases hd : d = n
    · subst hd
      have h0 : (List.range d).countP (fun i => decide (i = d)) = 0 := by
        rw [List.countP_eq_zero]
        intro a ha
        simp only [List.mem_range] at ha
        simp only [decide_eq_true_eq]
        omega
      rw [h0]
      simp
    · rw [ih (by omega)]
      have h0 : ([n].countP fun i => decide (i = d)) = 0 := by
        rw [List.countP_eq_zero]
        intro a ha
        simp only [List.mem_singleton] at ha
        subst ha
        simp only [decide_eq_true_eq]
        omega
      rw [h0]

theorem countP_innerPred (tsh sh q : Nat) (htsh : 0 < tsh) (hq : q < sh) :
    (List.range (nTilesAx sh tsh)).countP (innerPred (tsh, sh, q)) = 1 := by
  have hdq := div_lt_nTilesAx sh tsh q htsh hq
  have hcongr : ∀ i ∈ List.range (nTilesAx sh tsh),
      (innerPred (tsh, sh, q) i = true) ↔ ((fun i => decide (i = q / tsh)) i = true) := by
    intro i _
    simp only [innerPred, Bool.and_eq_true, decide_eq_true_eq, Nat.lt_min]
    constructor
    · rintro ⟨h1, h2, -⟩
      symm
      apply Nat.div_eq_of_lt_le h1
      have : (i + 1) * tsh = i * tsh + tsh := by ring
      omega
    · rintro rfl
      have hml : (q / tsh) * tsh ≤ q := Nat.div_mul_le_self q tsh
      have hdm := Nat.div_add_mod q tsh
      have hmod : q % tsh < tsh := Nat.mod_lt q htsh
      have hcomm : (q / tsh) * tsh = tsh * (q / tsh) := by ring
      refine ⟨hml, by omega, hq⟩
  rw [List.countP_congr hcongr]
  exact countP_eq_one_range (q / tsh) (nTilesAx sh tsh) hdq

/-- Inside the tile plan, membership of a position in a tile's inner window
decomposes into the per-spatial-axis ownership predicate on the tile index
vector. -/
theorem inWin_inner_matchesL (tile halo : Ax → Nat)
    (htile : ∀ ax, ax.isSpatial = true → 0 < tile ax) :
    ∀ (axes : List Ax) (shape idx sp : List Nat),
      shape.length = axes.length →
      inBounds shape idx = true →
      sp ∈ cartProd (tileRanges tile axes shape) →
      inWin ((axisWindows tile halo axes shape sp).map (·.2.1)) shape idx
        = matchesL ((spatialTriples tile axes shape idx).map innerPred) sp := by
  intro axes
  induction axes with
  | nil =>
    intro shape idx sp hlen hb hsp
    obtain rfl : shape = [] := List.length_eq_zero.mp hlen
    obtain rfl : sp = [] := by
      simpa [tileRanges, cartProd] using hsp
    cases idx with
    | nil => rfl
    | cons q idx => simp [inBounds] at hb
  | cons ax axes ih =>
    intro shape idx sp hlen hb hsp
    cases shape with
    | nil => simp at hlen
    | cons sh shape =>
      cases idx with
      | nil => simp [inBounds] at hb
      | cons q idx =>
        simp only [inBounds, Bool.and_eq_true, decide_eq_true_eq] at hb
        obtain ⟨hq, hbrest⟩ := hb
        by_cases hspat : ax.isSpatial = true
        · rw [show tileRanges tile (ax :: axes) (sh :: shape)
              = nTilesAx sh (tile ax) :: tileRanges tile axes shape by
            simp [tileRanges, hspat]] at hsp
          rw [mem_cartProd] at hsp
          cases hsp with
          | cons hi htl =>
            rename_i i sp'
            have htsh := htile ax hspat
            have hpos := pos_lt_extent sh (tile ax) i htsh hi
            rw [show axisWindows tile halo (ax :: axes) (sh :: shape) (i :: sp')
                = spatialWindows sh (tile ax) (halo ax) i ::
                    axisWindows tile halo axes shape sp' by simp [axisWindows, hspat]]
            rw [show spatialTriples tile (ax :: axes) (sh :: shape) (q :: idx)
                = (tile ax, sh, q) :: spatialTriples tile axes shape idx by
              simp [spatialTriples, hspat]]
            simp only [List.map_cons, inWin, matchesL]
            rw [ih shape idx sp' (by simpa using hlen) hbrest
              ((mem_cartProd _ _).mpr htl)]
            congr 1
            rw [inner_startIdx, inner_stopIdx]
            unfold innerPred
            have h1 : min (i * tile ax) sh = i * tile ax := by omega
            have h2 : min (min (i * tile ax + tile ax) sh) sh
                = min (i * tile ax + tile ax) sh := by omega
            rw [h1, h2]
        · rw [show tileRanges tile (ax :: axes) (sh :: shape)
              = tileRanges tile axes shape by simp [tileRanges, hspat]] at hsp
          rw [show axisWindows tile halo (ax :: axes) (sh :: shape) sp
              = (PySlice.all, PySlice.all, PySlice.all) ::
                  axisWindows tile halo axes shape sp by simp [axisWindows, hspat]]
          rw [show spatialTriples tile (ax :: axes) (sh :: shape) (q :: idx)
              = spatialTriples tile axes shape idx by simp [spatialTriples, hspat]]
          simp only [List.map_cons, inWin]
          rw [ih shape idx sp (by simpa using hlen) hbrest hsp]
          have hs : PySlice.all.startIdx sh ≤ q := by rw [all_startIdx]; omega
          have he : q < PySlice.all.stopIdx sh := by rw [all_stopIdx]; omega
          simp [hs, he]

/-- The lists `spatialTriples` and `tileRanges` walk the spatial axes in
step; each per-axis count of owning tile indices is `1`. -/
theorem zip_counts_all_one (tile : Ax → Nat)
    (htile : ∀ ax, ax.isSpatial = true → 0 < tile ax) :
    ∀ (axes : List Ax) (shape idx : List Nat),
      shape.length = axes.length →
      inBounds shape idx = true →
      ∀ x ∈ List.zipWith (fun p n => (List.range n).countP p)
        ((spatialTriples tile axes shape idx).map innerPred)
        (tileRanges tile axes shape), x = 1 := by
  intro axes
  induction axes with
  | nil =>
    intro shape idx hlen hb x hx
    obtain rfl : shape = [] := List.length_eq_zero.mp hlen
    simp [spatialTriples, tileRanges] at hx
  | cons ax axes ih =>
    intro shape idx hlen hb x hx
    cases shape with
    | nil => simp at hlen
    | cons sh shape =>
      cases idx with
      | nil => simp [inBounds] at hb
      | cons q idx =>
        simp only [inBounds, Bool.and_eq_true, decide_eq_true_eq] at hb
        obtain ⟨hq, hbrest⟩ := hb
        by_cases hspat : ax.isSpatial = true
        · rw [show spatialTriples tile (ax :: axes) (sh :: shape) (q :: idx)
              = (tile ax, sh, q) :: spatialTriples tile axes shape idx by
            simp [spatialTriples, hspat]] at hx
          rw [show tileRanges tile (ax :: axes) (sh :: shape)
              = nTilesAx sh (tile ax) :: tileRanges tile axes shape by
            simp [tileRanges, hspat]] at hx
          simp only [List.map_cons, List.zipWith_cons_cons, List.mem_cons] at hx
          rcases hx with rfl | hx
          · exact countP_innerPred (tile ax) sh q (htile ax hspat) hq
          · exact ih shape idx (by simpa using hlen) hbrest x hx
        · rw [show spatialTriples tile (ax :: axes) (sh :: shape) (q :: idx)
              = spatialTriples tile axes shape idx by simp [spatialTriples, hspat]] at hx
          rw [show tileRanges tile (ax :: axes) (sh :: shape)
              = tileRanges tile axes shape by simp [tileRanges, hspat]] at hx
          exact ih shape idx (by simpa using hlen) hbrest x hx

theorem spatialTriples_length_eq (tile : Ax → Nat) :
    ∀ (axes : List Ax) (shape idx : List Nat),
      shape.length = axes.length → inBounds shape idx = true →
      (spatialTriples tile axes shape idx).length = (tileRanges tile axes shape).length := by
  intro axes
  induction axes with
  | nil =>
    intro shape idx hlen _
    obtain rfl : shape = [] := List.length_eq_zero.mp hlen
    simp [spatialTriples, tileRanges]
  | cons ax axes ih =>
    intro shape idx hlen hb
    cases shape with
    | nil => simp at hlen
    | cons sh shape =>
      cases idx with
      | nil => simp [inBounds] at hb
      | cons q idx =>
        simp only [inBounds, Bool.and_eq_true, decide_eq_true_eq] at hb
        by_cases hspat : ax.isSpatial = true
        · simp only [spatialTriples, tileRanges, hspat, if_pos, List.length_cons]
          exact congrArg Nat.succ (ih shape idx (by simpa using hlen) hb.2)
        · simp only [spatialTriples, tileRanges, hspat]
          rw [if_neg (by simp [hspat]), if_neg (by simp [hspat])]
          exact ih shape idx (by simpa using hlen) hb.2

/-- C2: partition property of the tile plan.  The tile sequence has
`ceil(extent / tile_extent)` tiles per spatial axis (`nTilesAx` equals that
ceiling and the sequence length is the product of the per-axis counts), and
every in-bounds position lies in the inner window of exactly one tile; in
particular for shape (9,9), tile (4,4), halo (1,1) there are 9 tiles whose
inner regions cover all 81 positions exactly once. -/
theorem claim_C2_partition_property (shape : List Nat) (tile halo : Ax → Nat)
    (axes : List Ax) (hlen : shape.length = axes.length)
    (htile : ∀ ax, ax.isSpatial = true → 0 < tile ax) :
    ((_get_tiling shape tile halo axes).length = (tileRanges tile axes shape).prod ∧
     ∀ sh tsh, 0 < tsh → nTilesAx sh tsh = (sh + tsh - 1) / tsh) ∧
    (∀ idx, inBounds shape idx = true →
      (_get_tiling shape tile halo axes).countP
        (fun t => inWin t.2.1 shape idx) = 1) ∧
    ((_get_tiling [9, 9] (fun _ => 4) (fun _ => 1) [Ax.y, Ax.x]).length = 9 ∧
     ((List.range 9).all fun i => (List.range 9).all fun j =>
       (_get_tiling [9, 9] (fun _ => 4) (fun _ => 1) [Ax.y, Ax.x]).countP
         (fun t => inWin t.2.1 [9, 9] [i, j]) == 1) = true) := by
  refine ⟨⟨?_, fun sh tsh h => nTilesAx_eq_ceil sh tsh h⟩, ?_, by decide, by decide⟩
  · simp only [_get_tiling, List.length_map]
    exact length_cartProd _
  · intro idx hb
    unfold _get_tiling
    rw [List.countP_map]
    have hcongr : ∀ sp ∈ cartProd (tileRanges tile axes shape),
        (((fun t : List PySlice × List PySlice × List PySlice =>
            inWin t.2.1 shape idx) ∘
          (fun sp => unzip3 (axisWindows tile halo axes shape sp))) sp = true) ↔
        (matchesL ((spatialTriples tile axes shape idx).map innerPred) sp = true) := by
      intro sp hsp
      simp only [Function.comp_apply, unzip3_snd1]
      rw [inWin_inner_matchesL tile halo htile axes shape idx sp hlen hb hsp]
    rw [List.countP_congr hcongr]
    rw [countP_cartProd_matches _ _ (by
      rw [List.length_map]
      exact spatialTriples_length_eq tile axes shape idx hlen hb)]
    exact List.prod_eq_one (zip_counts_all_one tile htile axes shape idx hlen hb)

/-- Witness for C2 at shape (9,9), tile 4, halo 1 over axes `(y, x)`. -/
theorem claim_C2_witness :
    (((_get_tiling [9, 9] (fun _ => 4) (fun _ => 1) [Ax.y, Ax.x]).length
        = (tileRanges (fun _ => 4) [Ax.y, Ax.x] [9, 9]).prod ∧
      ∀ sh tsh, 0 < tsh → nTilesAx sh tsh = (sh + tsh - 1) / tsh) ∧
     (∀ idx, inBounds [9, 9] idx = true →
       (_get_tiling [9, 9] (fun _ => 4) (fun _ => 1) [Ax.y, Ax.x]).countP
         (fun t => inWin t.2.1 [9, 9] idx) = 1) ∧
     ((_get_tiling [9, 9] (fun _ => 4) (fun _ => 1) [Ax.y, Ax.x]).length = 9 ∧
      ((List.range 9).all fun i => (List.range 9).all fun j =>
        (_get_tiling [9, 9] (fun _ => 4) (fun _ => 1) [Ax.y, Ax.x]).countP
          (fun t => inWin t.2.1 [9, 9] [i, j]) == 1) = true)) :=
  claim_C2_partition_property [9, 9] (fun _ => 4) (fun _ => 1) [Ax.y, Ax.x]
    rfl (fun _ _ => Nat.succ_pos 3)

theorem Forall3_imp {P Q : α → β → γ → Prop} (h : ∀ a b c, P a b c → Q a b c) :
    ∀ {l₁ : List α} {l₂ : List β} {l₃ : List γ},
      Forall3 P l₁ l₂ l₃ → Forall3 Q l₁ l₂ l₃ := by
  intro l₁
  induction l₁ with
  | nil =>
    intro l₂ l₃ hp
    cases l₂ with
    | nil => cases l₃ with
      | nil => trivial
      | cons _ _ => exact hp.elim
    | cons _ _ => cases l₃ <;> exact hp.elim
  | cons a l₁ ih =>
    intro l₂ l₃ hp
    cases l₂ with
    | nil => cases l₃ <;> exact hp.elim
    | cons b l₂ =>
      cases l₃ with
      | nil => exact hp.elim
      | cons c l₃ =>
        obtain ⟨h1, h2⟩ := hp
        exact ⟨h a b c h1, ih h2⟩

/-- C6: tile window formulas.  Every tile of `_get_tiling` has, per spatial
axis, `outer = [max(pos − halo, 0), min(pos + tile + halo, extent))`,
`inner = [pos, min(pos + tile, extent))` with `pos = i · tile`, and a local
window starting at `inner.start − outer.start` that is open-ended exactly
when `outer.stop = inner.stop` and otherwise ends at
`−(outer.stop − inner.stop)`; every in-range tile index vector yields a tile
of the plan; and for spatial shape (10,), tile 4, halo 2 the plan is the
three tiles with inner ranges [0,4), [4,8), [8,10), first outer [0,6) and
last outer [6,10). -/
theorem claim_C6_window_formulas (shape : List Nat) (tile halo : Ax → Nat)
    (axes : List Ax) (w : List PySlice × List PySlice × List PySlice)
    (hlen : shape.length = axes.length)
    (hw : w ∈ _get_tiling shape tile halo axes) :
    (∃ ws, w = unzip3 ws ∧ Forall3 (fun ax sh aw =>
      (ax.isSpatial = true → ∃ i, i < nTilesAx sh (tile ax) ∧
        aw.1.start = some (max ((i : Int) * tile ax - halo ax) 0) ∧
        aw.1.stop = some (min ((i : Int) * tile ax + tile ax + halo ax) (sh : Int)) ∧
        aw.2.1.start = some ((i : Int) * tile ax) ∧
        aw.2.1.stop = some (min ((i : Int) * tile ax + tile ax) (sh : Int)) ∧
        aw.2.2.start = some ((i : Int) * tile ax
          - max ((i : Int) * tile ax - halo ax) 0) ∧
        (aw.1.stop = aw.2.1.stop → aw.2.2.stop = none) ∧
        (aw.1.stop ≠ aw.2.1.stop → ∃ oe ie : Int, aw.1.stop = some oe ∧
          aw.2.1.stop = some ie ∧ aw.2.2.stop = some (-(oe - ie)))) ∧
      (ax.isSpatial = false → aw = (PySlice.all, PySlice.all, PySlice.all)))
      axes shape ws) ∧
    (∀ sp ∈ cartProd (tileRanges tile axes shape),
      unzip3 (axisWindows tile halo axes shape sp)
        ∈ _get_tiling shape tile halo axes) ∧
    (_get_tiling [10] (fun _ => 4) (fun _ => 2) [Ax.x]
      = [([⟨some 0, some 6⟩], [⟨some 0, some 4⟩], [⟨some 0, some (-2)⟩]),
         ([⟨some 2, some 10⟩], [⟨some 4, some 8⟩], [⟨some 2, some (-2)⟩]),
         ([⟨some 6, some 10⟩], [⟨some 8, some 10⟩], [⟨some 2, none⟩])]) := by
  refine ⟨?_, ?_, by decide⟩
  · obtain ⟨ws, rfl, hf⟩ := mem_get_tiling shape tile halo axes w hlen hw
    refine ⟨ws, rfl, Forall3_imp ?_ hf⟩
    intro ax sh aw hok
    unfold TileAxOk at hok
    constructor
    · intro hspat
      rw [if_pos hspat] at hok
      obtain ⟨i, hi, rfl⟩ := hok
      refine ⟨i, hi, rfl, rfl, rfl, rfl, rfl, ?_, ?_⟩
      · intro heq
        have heq' : min ((i : Int) * tile ax + tile ax + halo ax) (sh : Int)
            = min ((i : Int) * tile ax + tile ax) (sh : Int) := Option.some.inj heq
        show (if (min ((i : Int) * tile ax + tile ax + halo ax) (sh : Int)
              ≠ min ((i : Int) * tile ax + tile ax) (sh : Int))
            then some (-(min ((i : Int) * tile ax + tile ax + halo ax) (sh : Int)
              - min ((i : Int) * tile ax + tile ax) (sh : Int))) else none) = none
        rw [if_neg (fun hn => hn heq')]
      · intro hne
        have hne' : min ((i : Int) * tile ax + tile ax + halo ax) (sh : Int)
            ≠ min ((i : Int) * tile ax + tile ax) (sh : Int) :=
          fun h => hne (congrArg some h)
        refine ⟨min ((i : Int) * tile ax + tile ax + halo ax) (sh : Int),
          min ((i : Int) * tile ax + tile ax) (sh : Int), rfl, rfl, ?_⟩
        show (if (min ((i : Int) * tile ax + tile ax + halo ax) (sh : Int)
              ≠ min ((i : Int) * tile ax + tile ax) (sh : Int))
            then some (-(min ((i : Int) * tile ax + tile ax + halo ax) (sh : Int)
              - min ((i : Int) * tile ax + tile ax) (sh : Int))) else none)
            = some (-(min ((i : Int) * tile ax + tile ax + halo ax) (sh : Int)
              - min ((i : Int) * tile ax + tile ax) (sh : Int)))
        rw [if_pos hne']
    · intro hspat
      rw [if_neg (by simp [hspat])] at hok
      exact hok
  · intro sp hsp
    simp only [_get_tiling, List.mem_map]
    exact ⟨sp, hsp, rfl⟩

/-- Witness for C6 at the first tile of the (10,), tile 4, halo 2 plan. -/
theorem claim_C6_witness :
    (∃ ws, (([⟨some 0, some 6⟩], [⟨some 0, some 4⟩], [⟨some 0, some (-2)⟩]) :
        List PySlice × List PySlice × List PySlice) = unzip3 ws ∧
      Forall3 (fun ax sh aw =>
        (ax.isSpatial = true → ∃ i, i < nTilesAx sh ((fun _ : Ax => 4) ax) ∧
          aw.1.start = some (max ((i : Int) * (fun _ : Ax => 4) ax
            - (fun _ : Ax => 2) ax) 0) ∧
          aw.1.stop = some (min ((i : Int) * (fun _ : Ax => 4) ax
            + (fun _ : Ax => 4) ax + (fun _ : Ax => 2) ax) (sh : Int)) ∧
          aw.2.1.start = some ((i : Int) * (fun _ : Ax => 4) ax) ∧
          aw.2.1.stop = some (min ((i : Int) * (fun _ : Ax => 4) ax
            + (fun _ : Ax => 4) ax) (sh : Int)) ∧
          aw.2.2.start = some ((i : Int) * (fun _ : Ax => 4) ax
            - max ((i : Int) * (fun _ : Ax => 4) ax - (fun _ : Ax => 2) ax) 0) ∧
          (aw.1.stop = aw.2.1.stop → aw.2.2.stop = none) ∧
          (aw.1.stop ≠ aw.2.1.stop → ∃ oe ie : Int, aw.1.stop = some oe ∧
            aw.2.1.stop = some ie ∧ aw.2.2.stop = some (-(oe - ie)))) ∧
        (ax.isSpatial = false → aw = (PySlice.all, PySlice.all, PySlice.all)))
        [Ax.x] [10] ws) ∧
    (∀ sp ∈ cartProd (tileRanges (fun _ => 4) [Ax.x] [10]),
      unzip3 (axisWindows (fun _ => 4) (fun _ => 2) [Ax.x] [10] sp)
        ∈ _get_tiling [10] (fun _ => 4) (fun _ => 2) [Ax.x]) ∧
    (_get_tiling [10] (fun _ => 4) (fun _ => 2) [Ax.x]
      = [([⟨some 0, some 6⟩], [⟨some 0, some 4⟩], [⟨some 0, some (-2)⟩]),
         ([⟨some 2, some 10⟩], [⟨some 4, some 8⟩], [⟨some 2, some (-2)⟩]),
         ([⟨some 6, some 10⟩], [⟨some 8, some 10⟩], [⟨some 2, none⟩])]) :=
  claim_C6_window_formulas [10] (fun _ => 4) (fun _ => 2) [Ax.x]
    ([⟨some 0, some 6⟩], [⟨some 0, some 4⟩], [⟨some 0, some (-2)⟩])
    rfl (by decide)

/-- Per-axis description of the `pad_right` list built by `load_tile`. -/
theorem tilePadRight_spec (tile halo : Ax → Nat)
    (htile : ∀ ax, ax.isSpatial = true → 0 < tile ax) :
    ∀ (axes : List Ax) (shape : List Nat)
      (ws : List (PySlice × PySlice × PySlice)),
      Forall3 (TileAxOk tile halo) axes shape ws →
      Forall3 (fun ax sh (p : PySlice × Option Bool) =>
        (ax.isSpatial = true →
          ∃ b, p.2 = some b ∧ ((b = true) ↔ p.1.startIdx sh = 0)) ∧
        (ax.isSpatial = false → p.2 = none))
        axes shape ((ws.map (·.1)).zip (tilePadRight axes (ws.map (·.1)))) := by
  intro axes
  induction axes with
  | nil =>
    intro shape ws h
    cases shape with
    | nil =>
      cases ws with
      | nil => trivial
      | cons _ _ => exact h.elim
    | cons _ _ => cases ws <;> exact h.elim
  | cons ax axes ih =>
    intro shape ws h
    cases shape with
    | nil => cases ws <;> exact h.elim
    | cons sh shape =>
      cases ws with
      | nil => exact h.elim
      | cons w ws =>
        obtain ⟨hw, hrest⟩ := h
        have ihr := ih shape ws hrest
        by_cases hspat : ax.isSpatial = true
        · unfold TileAxOk at hw
          rw [if_pos hspat] at hw
          obtain ⟨i, hi, rfl⟩ := hw
          have hpos := pos_lt_extent sh (tile ax) i (htile ax hspat) hi
          rw [show tilePadRight (ax :: axes)
              ((spatialWindows sh (tile ax) (halo ax) i :: ws).map (·.1))
              = some ((spatialWindows sh (tile ax) (halo ax) i).1.start == some 0) ::
                tilePadRight axes (ws.map (·.1)) by
            simp [tilePadRight, hspat]]
          simp only [List.map_cons, List.zip_cons_cons]
          refine ⟨⟨fun _ => ⟨_, rfl, ?_⟩, fun hns => by rw [hspat] at hns; cases hns⟩, ihr⟩
          rw [outer_startIdx]
          constructor
          · intro hb
            have : (spatialWindows sh (tile ax) (halo ax) i).1.start = some 0 :=
              by simpa using hb
            have h0 : max ((i : Int) * tile ax - halo ax) 0 = 0 := Option.some.inj this
            omega
          · intro hz
            have h0 : max ((i : Int) * tile ax - halo ax) 0 = 0 := by omega
            show ((spatialWindows sh (tile ax) (halo ax) i).1.start == some 0) = true
            show ((some (max ((i : Int) * tile ax - halo ax) 0) : Option Int)
              == some 0) = true
            rw [h0]
            rfl
        · have hwn : w = (PySlice.all, PySlice.all, PySlice.all) := by
            unfold TileAxOk at hw
            rwa [if_neg hspat] at hw
          subst hwn
          rw [show tilePadRight (ax :: axes)
              (((PySlice.all, PySlice.all, PySlice.all) :: ws).map (·.1))
              = none :: tilePadRight axes (ws.map (·.1)) by
            simp [tilePadRight, hspat]]
          simp only [List.map_cons, List.zip_cons_cons]
          exact ⟨⟨fun hs => absurd hs hspat, fun _ => rfl⟩, ihr⟩

/-- C7: tiled-path side selection and fixed target.  For every tile of the
plan, the `pad_right` entry passed to the padder at a spatial axis is
pad-right exactly when the tile's outer window starts at 0 and pad-left
otherwise (`None` at non-spatial axes), and each per-tile prediction runs
through `predict_with_padding` in fixed mode with target
`tile_extent + 2 * halo` per spatial axis. -/
theorem claim_C7_side_selection_fixed_target (shape : List Nat)
    (tile halo : Ax → Nat) (axes : List Ax)
    (w : List PySlice × List PySlice × List PySlice)
    (hlen : shape.length = axes.length)
    (htile : ∀ ax, ax.isSpatial = true → 0 < tile ax)
    (hw : w ∈ _get_tiling shape tile halo axes) :
    Forall3 (fun ax sh (p : PySlice × Option Bool) =>
      (ax.isSpatial = true →
        ∃ b, p.2 = some b ∧ ((b = true) ↔ p.1.startIdx sh = 0)) ∧
      (ax.isSpatial = false → p.2 = none))
      axes shape (w.1.zip (tilePadRight axes w.1)) ∧
    (∀ (f : NDArr → NDArr) (input out : NDArr),
      tiledStep f input axes (tiledPaddingSpec tile halo) out w
        = (predict_with_padding f (input.slice w.1) axes
            ⟨PadMode.fixed, fun ax => tile ax + 2 * halo ax⟩
            (.ofList (tilePadRight axes w.1))).map
            (fun res => out.setSlice w.2.1 (res.slice w.2.2))) := by
  obtain ⟨ws, rfl, hf⟩ := mem_get_tiling shape tile halo axes w hlen hw
  constructor
  · rw [unzip3_fst]
    exact tilePadRight_spec tile halo htile axes shape ws hf
  · intro f input out
    unfold tiledStep
    dsimp only
    have hcall : predict_with_padding f (input.slice (unzip3 ws).1) axes
        ⟨PadMode.fixed, fun ax => tile ax + 2 * halo ax⟩
        (.ofList (tilePadRight axes (unzip3 ws).1))
        = predict_with_padding f (input.slice (unzip3 ws).1) axes
          (tiledPaddingSpec tile halo)
          (.ofList (tilePadRight axes (unzip3 ws).1)) := rfl
    rw [hcall]
    cases predict_with_padding f (input.slice (unzip3 ws).1) axes
        (tiledPaddingSpec tile halo)
        (.ofList (tilePadRight axes (unzip3 ws).1)) <;> rfl

/-- Witness for C7 at the middle tile of the (10,), tile 4, halo 2 plan. -/
theorem claim_C7_witness :
    Forall3 (fun ax sh (p : PySlice × Option Bool) =>
      (ax.isSpatial = true →
        ∃ b, p.2 = some b ∧ ((b = true) ↔ p.1.startIdx sh = 0)) ∧
      (ax.isSpatial = false → p.2 = none))
      [Ax.x] [10] (exTile7.1.zip (tilePadRight [Ax.x] exTile7.1)) ∧
    (∀ (f : NDArr → NDArr) (input out : NDArr),
      tiledStep f input [Ax.x] (tiledPaddingSpec (fun _ => 4) (fun _ => 2)) out exTile7
        = (predict_with_padding f (input.slice exTile7.1) [Ax.x]
            ⟨PadMode.fixed, fun ax => (fun _ : Ax => 4) ax + 2 * (fun _ : Ax => 2) ax⟩
            (.ofList (tilePadRight [Ax.x] exTile7.1))).map
            (fun res => out.setSlice exTile7.2.1 (res.slice exTile7.2.2))) :=
  claim_C7_side_selection_fixed_target [10] (fun _ => 4) (fun _ => 2) [Ax.x]
    exTile7 rfl (fun _ _ => Nat.succ_pos 3) (by decide)

/-- C8: interior tiles need no padding.  For any tile index whose outer
window is clipped at neither boundary of a spatial axis
(`halo ≤ pos` and `pos + tile + halo ≤ extent`), the outer extent equals the
fixed target `tile + 2·halo`, so the fixed-mode pad width computed on the
tiled path is zero on that axis; the pad-side choice is therefore only
observable at the two extreme ends of an axis. -/
theorem claim_C8_interior_no_padding (sh : Nat) (tile halo : Ax → Nat)
    (ax : Ax) (i : Nat)
    (hlo : halo ax ≤ i * tile ax)
    (hhi : i * tile ax + tile ax + halo ax ≤ sh) :
    ((spatialWindows sh (tile ax) (halo ax) i).1).len sh
      = tile ax + 2 * halo ax ∧
    padAxWidth .fixed ((tiledPaddingSpec tile halo).target ax)
      (((spatialWindows sh (tile ax) (halo ax) i).1).len sh) = .ok 0 := by
  have hlen : ((spatialWindows sh (tile ax) (halo ax) i).1).len sh
      = tile ax + 2 * halo ax := by
    unfold PySlice.len
    rw [outer_startIdx, outer_stopIdx]
    omega
  refine ⟨hlen, ?_⟩
  rw [hlen]
  show padAxWidth .fixed (tile ax + 2 * halo ax) (tile ax + 2 * halo ax) = .ok 0
  simp [padAxWidth, fixWidth]

/-- Witness for C8: extent 20, tile 4, halo 2, interior tile index 2. -/
theorem claim_C8_witness :
    ((spatialWindows 20 ((fun _ : Ax => 4) Ax.x) ((fun _ : Ax => 2) Ax.x) 2).1).len 20
      = (fun _ : Ax => 4) Ax.x + 2 * (fun _ : Ax => 2) Ax.x ∧
    padAxWidth .fixed
      ((tiledPaddingSpec (fun _ => 4) (fun _ => 2)).target Ax.x)
      (((spatialWindows 20 ((fun _ : Ax => 4) Ax.x)
        ((fun _ : Ax => 2) Ax.x) 2).1).len 20) = .ok 0 :=
  claim_C8_interior_no_padding 20 (fun _ => 4) (fun _ => 2) Ax.x 2
    (by decide) (by decide)

/-- C9: config conflict fails fast.  When both the padding and the tiling
argument are supplied (truthy), `_predict_sample` raises the configuration
error for EVERY environment of collaborators — in particular the result does
not depend on the tensor loader (no array is accessed) and no output pair is
produced. -/
theorem claim_C9_config_conflict (env : SampleEnv) (inputs outputs : List String)
    (padding : Option PadArg) (tiling : Option TileArg)
    (hp : padTruthy padding = true) (ht : tileTruthy tiling = true) :
    _predict_sample env inputs outputs padding tiling = .error .configError := by
  unfold _predict_sample
  rw [if_pos (by rw [hp, ht]; rfl)]

/-- Witness for C9 with a trivial environment and `padding = tiling = True`. -/
theorem claim_C9_witness :
    _predict_sample ⟨fun _ => [], fun _ _ => .ok [], fun _ _ => .ok [], fun x => x⟩
      [] [] (some (.ofBool true)) (some (.ofBool true)) = .error .configError :=
  claim_C9_config_conflict
    ⟨fun _ => [], fun _ _ => .ok [], fun _ _ => .ok [], fun x => x⟩
    [] [] (some (.ofBool true)) (some (.ofBool true)) rfl rfl

/-- Inversion of a successful tile step: the shape is unchanged and every
position outside the inner window keeps its previous value. -/
theorem tiledStep_ok_inv (f : NDArr → NDArr) (input : NDArr) (axes : List Ax)
    (p : PaddingSpec) (out : NDArr)
    (t : List PySlice × List PySlice × List PySlice) (out2 : NDArr)
    (h : tiledStep f input axes p out t = .ok out2) :
    out2.shape = out.shape ∧
    ∀ idx, inWin t.2.1 out.shape idx = false → out2.data idx = out.data idx := by
  unfold tiledStep at h
  dsimp only at h
  cases hp : predict_with_padding f (input.slice t.1) axes p
      (.ofList (tilePadRight axes t.1)) with
  | error e => rw [hp] at h; exact absurd h (by simp)
  | ok r =>
    rw [hp] at h
    simp only [Except.ok.injEq] at h
    subst h
    refine ⟨rfl, fun idx hw => ?_⟩
    show (if inWin t.2.1 out.shape idx = true
          then (r.slice t.2.2).data (relIdx t.2.1 out.shape idx)
          else out.data idx) = out.data idx
    rw [if_neg (by rw [hw]; simp)]

/-- Folding tile steps never touches positions outside all inner windows. -/
theorem foldlM_tiledStep_outside (f : NDArr → NDArr) (input : NDArr)
    (axes : List Ax) (p : PaddingSpec) :
    ∀ (ts : List (List PySlice × List PySlice × List PySlice)) (out res : NDArr),
      ts.foldlM (tiledStep f input axes p) out = .ok res →
      res.shape = out.shape ∧
      ∀ idx, (∀ w ∈ ts, inWin w.2.1 out.shape idx = false) →
        res.data idx = out.data idx := by
  intro ts
  induction ts with
  | nil =>
    intro out res h
    obtain rfl : out = res := by
      have : (pure out : Except PyError NDArr) = .ok res := by simpa using h
      simpa [pure, Except.pure] using this
    exact ⟨rfl, fun _ _ => rfl⟩
  | cons t ts ih =>
    intro out res h
    rw [List.foldlM_cons] at h
    cases hstep : tiledStep f input axes p out t with
    | error e =>
      rw [hstep] at h
      exact absurd h (by simp [Bind.bind, Except.bind])
    | ok out2 =>
      rw [hstep] at h
      obtain ⟨hsh2, hd2⟩ := tiledStep_ok_inv f input axes p out t out2 hstep
      obtain ⟨hshr, hdr⟩ := ih out2 res (by simpa [Bind.bind, Except.bind] using h)
      refine ⟨hshr.trans hsh2, fun idx hall => ?_⟩
      rw [hdr idx ?_, hd2 idx (hall t (List.mem_cons_self t ts))]
      intro w hw
      rw [hsh2]
      exact hall w (List.mem_cons_of_mem t hw)

/-- Pointwise description of `implicitShape`. -/
theorem implicitShape_spec (refAxes : List Ax) (refShape : List Nat) :
    ∀ (oaxes : List Ax) (scale offset : List Int) (l : List Nat),
      implicitShape refAxes refShape oaxes scale offset = .ok l →
      ∀ (k : Nat) (ax : Ax) (sc off : Int), oaxes[k]? = some ax →
        scale[k]? = some sc → offset[k]? = some off →
        ∃ n, axisLookup ax refAxes refShape = some n ∧
          l[k]? = some ((sc * (n : Int) + 2 * off).toNat) := by
  intro oaxes
  induction oaxes with
  | nil =>
    intro scale offset l h k ax sc off hk _ _
    simp at hk
  | cons a oaxes ih =>
    intro scale offset l h k ax sc off hk hs ho
    cases scale with
    | nil => simp at hs
    | cons s scale =>
      cases offset with
      | nil => simp at ho
      | cons o offset =>
        simp only [implicitShape] at h
        cases hl : axisLookup a refAxes refShape with
        | none => rw [hl] at h; exact absurd h (by simp)
        | some n =>
          rw [hl] at h
          cases hrec : implicitShape refAxes refShape oaxes scale offset with
          | error e => rw [hrec] at h; exact absurd h (by simp)
          | ok rest =>
            rw [hrec] at h
            simp only [Except.ok.injEq] at h
            subst h
            cases k with
            | zero =>
              simp only [List.getElem?_cons_zero, Option.some.injEq] at hk hs ho
              subst hk; subst hs; subst ho
              exact ⟨n, hl, by simp⟩
            | succ k =>
              simp only [List.getElem?_cons_succ] at hk hs ho ⊢
              exact ih scale offset rest hrec k ax sc off hk hs ho

/-- C10: output allocation.  When `predict_with_tiling` is called with
`outputs = None` and a single implicit-shape output spec — the tiling having
passed `check_tiling`'s asserts (strictly positive tile and halo on every
spatial axis of the input spec) — it allocates the output buffer itself as
an all-zero array whose shape is `scale · reference-input-shape + 2 · offset`
per axis, mutates that buffer tile by tile through
`_predict_with_tiling_impl`, and returns it; any element not covered by a
tile's inner window remains zero. -/
theorem claim_C10_output_allocation (f : NDArr → NDArr) (ispec : InputSpec)
    (input : NDArr) (scale offset : List Int) (oname : String)
    (oaxes : List Ax) (tile halo : Ax → Nat) (outShape : List Nat)
    (hcheck : check_tiling_ok ispec.axes tile halo = true)
    (hgood : badSpatialScaleOffset oaxes scale offset = false)
    (himp : implicitShape ispec.axes input.shape oaxes scale offset = .ok outShape) :
    (predict_with_tiling f [ispec] [⟨oname, oaxes, .implicit scale offset ispec.name⟩]
        [input] tile halo none
      = (match _predict_with_tiling_impl f [input]
            [NDArr.mk outShape (fun _ => 0)] ispec.axes [tile] [halo] with
         | .error e => .error e
         | .ok res => .ok [res])) ∧
    (∀ res, _predict_with_tiling_impl f [input] [NDArr.mk outShape (fun _ => 0)]
        ispec.axes [tile] [halo] = .ok res →
      res.shape = outShape ∧
      ∀ idx, ((_get_tiling input.shape tile halo ispec.axes).all
          fun w => !(inWin w.2.1 outShape idx)) = true → res.data idx = 0) ∧
    (∀ (k : Nat) (ax : Ax) (sc off : Int), oaxes[k]? = some ax →
      scale[k]? = some sc → offset[k]? = some off →
      ∃ n, axisLookup ax ispec.axes input.shape = some n ∧
        outShape[k]? = some ((sc * (n : Int) + 2 * off).toNat)) := by
  have halloc : allocOutputs [ispec] [input]
      [⟨oname, oaxes, .implicit scale offset ispec.name⟩]
      = .ok [NDArr.mk outShape (fun _ => 0)] := by
    unfold allocOutputs allocOutput
    dsimp only
    rw [if_neg (by rw [hgood]; simp)]
    rw [show namedLookup ispec.name [ispec] [input] = some (ispec, input) by
      unfold namedLookup
      rw [if_pos rfl]]
    dsimp only
    rw [himp]
    rfl
  refine ⟨?_, ?_, fun k ax sc off hk hs ho =>
    implicitShape_spec ispec.axes input.shape oaxes scale offset outShape himp
      k ax sc off hk hs ho⟩
  · unfold predict_with_tiling
    rw [if_neg (by simp)]
    rw [if_neg (by simp)]
    rw [if_neg (by simp)]
    dsimp only
    rw [show (!check_tiling_ok ispec.axes tile halo) = false by rw [hcheck]; rfl]
    rw [if_neg (by simp)]
    rw [halloc]
    dsimp only
    cases himpl : _predict_with_tiling_impl f [input]
        [NDArr.mk outShape (fun _ => 0)] ispec.axes [tile] [halo] with
    | error e => rfl
    | ok res => rfl
  · intro res h
    have himpl_eq : _predict_with_tiling_impl f [input]
        [NDArr.mk outShape (fun _ => 0)] ispec.axes [tile] [halo]
        = (if !(_get_tiling input.shape tile halo ispec.axes).isEmpty &&
              !(ispec.axes.contains Ax.b && ispec.axes.contains Ax.c) then
            (.error .valueError : Except PyError NDArr)
          else
            (_get_tiling input.shape tile halo ispec.axes).foldlM
              (tiledStep f input ispec.axes (tiledPaddingSpec tile halo))
              (NDArr.mk outShape (fun _ => 0))) := rfl
    rw [himpl_eq] at h
    have hfold : (_get_tiling input.shape tile halo ispec.axes).foldlM
        (tiledStep f input ispec.axes (tiledPaddingSpec tile halo))
        (NDArr.mk outShape (fun _ => 0)) = .ok res := by
      by_cases hg : (!(_get_tiling input.shape tile halo ispec.axes).isEmpty &&
          !(ispec.axes.contains Ax.b && ispec.axes.contains Ax.c)) = true
      · rw [if_pos hg] at h
        exact absurd h (by simp)
      · rwa [if_neg hg] at h
    obtain ⟨hsh, hd⟩ := foldlM_tiledStep_outside f input ispec.axes
      (tiledPaddingSpec tile halo) _ (NDArr.mk outShape (fun _ => 0)) res hfold
    refine ⟨hsh, fun idx hall => ?_⟩
    rw [hd idx ?_]
    intro w hw
    have := (List.all_eq_true.mp hall) w hw
    simpa using this

/-- Witness for C10: identity spec, input 1×1×4×4, tile 2, halo 1 (the
positive tile and halo pass `check_tiling`'s asserts). -/
theorem claim_C10_witness :
    (predict_with_tiling id [⟨"in", [Ax.b, Ax.c, Ax.y, Ax.x]⟩]
        [⟨"out", [Ax.b, Ax.c, Ax.y, Ax.x],
          .implicit [1, 1, 1, 1] [0, 0, 0, 0]
            (InputSpec.mk "in" [Ax.b, Ax.c, Ax.y, Ax.x]).name⟩]
        [⟨[1, 1, 4, 4], fun _ => 7⟩] (fun _ => 2) (fun _ => 1) none
      = (match _predict_with_tiling_impl id [⟨[1, 1, 4, 4], fun _ => 7⟩]
            [NDArr.mk [1, 1, 4, 4] (fun _ => 0)]
            (InputSpec.mk "in" [Ax.b, Ax.c, Ax.y, Ax.x]).axes
            [fun _ => 2] [fun _ => 1] with
         | .error e => .error e
         | .ok res => .ok [res])) ∧
    (∀ res, _predict_with_tiling_impl id [⟨[1, 1, 4, 4], fun _ => 7⟩]
        [NDArr.mk [1, 1, 4, 4] (fun _ => 0)]
        (InputSpec.mk "in" [Ax.b, Ax.c, Ax.y, Ax.x]).axes
        [fun _ => 2] [fun _ => 1] = .ok res →
      res.shape = [1, 1, 4, 4] ∧
      ∀ idx, ((_get_tiling (NDArr.mk [1, 1, 4, 4] (fun _ => 7)).shape
          (fun _ => 2) (fun _ => 1)
          (InputSpec.mk "in" [Ax.b, Ax.c, Ax.y, Ax.x]).axes).all
          fun w => !(inWin w.2.1 [1, 1, 4, 4] idx)) = true → res.data idx = 0) ∧
    (∀ (k : Nat) (ax : Ax) (sc off : Int),
      ([Ax.b, Ax.c, Ax.y, Ax.x] : List Ax)[k]? = some ax →
      ([1, 1, 1, 1] : List Int)[k]? = some sc →
      ([0, 0, 0, 0] : List Int)[k]? = some off →
      ∃ n, axisLookup ax (InputSpec.mk "in" [Ax.b, Ax.c, Ax.y, Ax.x]).axes
          (NDArr.mk [1, 1, 4, 4] (fun _ => 7)).shape = some n ∧
        ([1, 1, 4, 4] : List Nat)[k]? = some ((sc * (n : Int) + 2 * off).toNat)) :=
  claim_C10_output_allocation id ⟨"in", [Ax.b, Ax.c, Ax.y, Ax.x]⟩
    ⟨[1, 1, 4, 4], fun _ => 7⟩ [1, 1, 1, 1] [0, 0, 0, 0] "out"
    [Ax.b, Ax.c, Ax.y, Ax.x] (fun _ => 2) (fun _ => 1) [1, 1, 4, 4]
    rfl (by decide) rfl

/-- C1 (amended): tiled prediction with the identity predictor reproduces
the input on every input the tiled path accepts.  The claim as stated — for
*every* input array — fails on the code (`claim_C1_counterexample`): the
window dicts hard-code the `b`/`c` keys, `_pad`'s key-count assert only
admits the spatial key sets `{x,y}` / `{x,y,z}`, and `predict_with_padding`
asserts a leading tile extent of 1.  For an input whose axes include `b`
and `c`, start with a non-spatial axis of extent 1, and whose distinct
spatial axes are `{x,y}` without `z` or `{x,y,z}` with it, every positive
per-spatial-axis tile extent, non-negative halo and same-shaped output
buffer, `_predict_with_tiling_impl` with the identity predictor succeeds
and fills the output so that it equals the input exactly — whether or not
the tile extents divide the input extents, and for zero as well as
positive halo. -/
theorem claim_C1_tiled_identity_prediction (input output : NDArr) (axes : List Ax)
    (tile halo : Ax → Nat)
    (hlen : input.shape.length = axes.length)
    (htile : ∀ ax, ax.isSpatial = true → 0 < tile ax)
    (hout : output.shape = input.shape)
    (hb : Ax.b ∈ axes) (hc : Ax.c ∈ axes)
    (hkeys : spatialKeyCountOk axes = true)
    (a0 : Ax) (hhead : axes.head? = some a0) (hns : a0.isSpatial = false)
    (hone : input.shape.head? = some 1) :
    ∃ res, _predict_with_tiling_impl id [input] [output] axes [tile] [halo]
        = .ok res ∧
      res.shape = input.shape ∧
      ∀ idx, inBounds input.shape idx = true → res.data idx = input.data idx := by
  have hcb : axes.contains Ax.b = true := by
    show axes.elem Ax.b = true
    exact List.elem_eq_true_of_mem hb
  have hcc : axes.contains Ax.c = true := by
    show axes.elem Ax.c = true
    exact List.elem_eq_true_of_mem hc
  have himpl : _predict_with_tiling_impl id [input] [output] axes [tile] [halo]
      = (_get_tiling input.shape tile halo axes).foldlM
          (tiledStep id input axes (tiledPaddingSpec tile halo)) output := by
    show (if !(_get_tiling input.shape tile halo axes).isEmpty &&
            !(axes.contains Ax.b && axes.contains Ax.c) then
          (.error .valueError : Except PyError NDArr)
        else
          (_get_tiling input.shape tile halo axes).foldlM
            (tiledStep id input axes (tiledPaddingSpec tile halo)) output) = _
    rw [hcb, hcc]
    simp
  rw [himpl]
  obtain ⟨fin, hfold, hfsh, hfd⟩ := fold_tiles_id tile halo htile input axes
    hkeys a0 hhead hns hone
    (_get_tiling input.shape tile halo axes)
    (fun t ht => mem_get_tiling input.shape tile halo axes t hlen ht)
    output hout
  refine ⟨fin, hfold, hfsh, ?_⟩
  intro idx hidx
  exact (hfd idx).1 (tile_cover_exists tile halo htile axes input.shape idx hlen hidx)

/-- Counterexample to C1 as stated: a 1-D input over the single spatial
axis `x` satisfies the claim's hypotheses (positive tile, non-negative
halo, same-shaped output), yet the tile loop's first `load_tile` indexes
the hard-coded `b`/`c` window keys on an array without those dims and
raises `ValueError` — the output is never filled with the input. -/
theorem claim_C1_counterexample :
    _predict_with_tiling_impl id [exIn1] [exOut1] [Ax.x]
        [fun _ => 2] [fun _ => 1] = .error .valueError ∧
    ¬ ∃ res, _predict_with_tiling_impl id [exIn1] [exOut1] [Ax.x]
        [fun _ => 2] [fun _ => 1] = .ok res ∧
      res.shape = exIn1.shape ∧
      ∀ idx, inBounds exIn1.shape idx = true → res.data idx = exIn1.data idx := by
  refine ⟨rfl, ?_⟩
  rintro ⟨res, hres, -⟩
  rw [show _predict_with_tiling_impl id [exIn1] [exOut1] [Ax.x]
      [fun _ => 2] [fun _ => 1] = .error .valueError from rfl] at hres
  exact absurd hres (by simp)

/-- Witness for the amended C1: a `1 × 2 × 9 × 9` input over `b, c, y, x`,
tile 4 (does not divide 9), halo 1. -/
theorem claim_C1_witness :
    ∃ res, _predict_with_tiling_impl id [exIn4] [exOut4]
        [Ax.b, Ax.c, Ax.y, Ax.x] [fun _ => 4] [fun _ => 1] = .ok res ∧
      res.shape = exIn4.shape ∧
      ∀ idx, inBounds exIn4.shape idx = true → res.data idx = exIn4.data idx :=
  claim_C1_tiled_identity_prediction exIn4 exOut4 [Ax.b, Ax.c, Ax.y, Ax.x]
    (fun _ => 4) (fun _ => 1) rfl (fun _ _ => Nat.succ_pos 3) rfl
    (by decide) (by decide) (by decide) Ax.b rfl rfl rfl

end Bio

